import Mathlib

/-!
Shallow embedding of the auto-docs structural-extraction and rendering
pipeline (TypeScript sources under src/), together with theorems settling
the specification claims.  Strings are modelled as `String` at the data
level; all scanning work happens on `List Char`, mirroring the JavaScript
string operations (`trim`, `split`, `replace`, regular-expression matches
hand-translated to deterministic matchers with the same greedy semantics).
-/

/-! ## JavaScript string primitives -/

/-- Model of the character class `\s` of JavaScript regular expressions and
of `String.prototype.trim` (restricted to the whitespace the sources can
meet). -/
def isJsWs (c : Char) : Bool := c.isWhitespace

/-- The character `{`, written via its code point to keep it out of string
and character literals. -/
def openBrace : Char := Char.ofNat 123

/-- The character `}`. -/
def closeBrace : Char := Char.ofNat 125

/-- The character `'`. -/
def singleQuote : Char := Char.ofNat 39

/-- Model of `String.prototype.trim`. -/
def trimChars (cs : List Char) : List Char :=
  ((cs.dropWhile isJsWs).reverse.dropWhile isJsWs).reverse

/-- Model of `str.split(sep)` for a one-character separator, as used with
`content.split('\n')` and `params.split(',')` in the parsers. -/
def splitOnChar (sep : Char) : List Char → List (List Char)
  | [] => [[]]
  | c :: rest =>
    let rs := splitOnChar sep rest
    if c = sep then [] :: rs
    else (c :: rs.headD []) :: rs.tail

/-- First index at which `pat` occurs in `l` (model of `indexOf` for a
string argument). -/
def indexOfSub : List Char → List Char → Option Nat
  | [], pat => if pat.isPrefixOf ([] : List Char) then some 0 else none
  | c :: t, pat =>
    if pat.isPrefixOf (c :: t) then some 0
    else (indexOfSub t pat).map (· + 1)

/-- Whether `pat` occurs in `s` (model of `String.prototype.includes`). -/
def hasSub : List Char → List Char → Bool
  | [], pat => pat.isPrefixOf ([] : List Char)
  | c :: t, pat => pat.isPrefixOf (c :: t) || hasSub t pat

/-- Model of `s.replace(pat, rep)` with a plain string pattern: only the
first occurrence is replaced, and the replacement is inserted literally. -/
def replaceFirstChars (pat rep : List Char) : List Char → List Char
  | [] => if pat.isPrefixOf ([] : List Char) then rep else []
  | c :: t =>
    if pat.isPrefixOf (c :: t) then rep ++ (c :: t).drop pat.length
    else c :: replaceFirstChars pat rep t

/-- String-level wrapper for `replaceFirstChars`. -/
def replaceFirst (s pat rep : String) : String :=
  ⟨replaceFirstChars pat.data rep.data s.data⟩

/-- Model of the JavaScript truthiness idiom `a || b` on strings, where the
left operand may be absent (`undefined`) or empty (falsy). -/
def jsOr (a : Option String) (b : String) : String :=
  match a with
  | some s => if s = "" then b else s
  | none => b

/-! ## Regular-expression building blocks

Each heuristic parser uses a handful of anchored regular expressions; they
are translated into deterministic matchers.  `ws1` is `\s+` followed by the
next token (which never begins with whitespace in these patterns, so the
greedy match is deterministic), `wsStar` is `\s*`, `lit` a literal, `ident1`
the class `[a-zA-Z_][a-zA-Z0-9_]*`, and `upToChar stop` the pattern
`([^X]*)X` returning the capture and the rest. -/

def wsStar (cs : List Char) : List Char := cs.dropWhile isJsWs

def ws1 : List Char → Option (List Char)
  | c :: rest => if isJsWs c then some (rest.dropWhile isJsWs) else none
  | [] => none

def lit (pat : List Char) (cs : List Char) : Option (List Char) :=
  if pat.isPrefixOf cs then some (cs.drop pat.length) else none

def isIdentStart (c : Char) : Bool := c.isAlpha || c = '_'

def isIdentChar (c : Char) : Bool := c.isAlphanum || c = '_'

def ident1 : List Char → Option (List Char × List Char)
  | c :: rest =>
    if isIdentStart c then some (c :: rest.takeWhile isIdentChar, rest.dropWhile isIdentChar)
    else none
  | [] => none

def upToChar (stop : Char) (cs : List Char) : Option (List Char × List Char) :=
  match cs.dropWhile (· ≠ stop) with
  | _ :: r => some (cs.takeWhile (· ≠ stop), r)
  | [] => none

/-! ## Shared data model (types/index.ts) -/

structure ParameterInfo where
  name : String
  type : String
  defaultValue : Option String := none
deriving Repr, DecidableEq

structure FunctionInfo where
  name : String
  parameters : List ParameterInfo
  returnType : String
  isAsync : Bool
  isGenerator : Bool
  isStatic : Bool := false
  visibility : Option String := none
  comments : Option String := none
  startLine : Nat
  endLine : Nat
deriving Repr, DecidableEq

structure PropertyInfo where
  name : String
  type : String
  comments : Option String := none
deriving Repr, DecidableEq

structure ClassInfo where
  name : String
  methods : List FunctionInfo
  properties : List PropertyInfo
  constructorInfo : Option FunctionInfo := none
  superClass : Option String := none
  isInterface : Bool := false
  comments : Option String := none
  startLine : Nat
  endLine : Nat
deriving Repr, DecidableEq

structure ImportSpecifier where
  name : String
  type : String
  imported : Option String := none
deriving Repr, DecidableEq

structure ImportInfo where
  source : String
  specifiers : List ImportSpecifier
  startLine : Nat
deriving Repr, DecidableEq

structure ExportInfo where
  name : String
  type : String
  startLine : Nat
  typeDefinition : Option String := none
deriving Repr, DecidableEq

structure ParsedCodeFile where
  filePath : String
  language : String
  content : String
  functions : List FunctionInfo
  classes : List ClassInfo
  imports : List ImportInfo
  exports : List ExportInfo
deriving Repr, DecidableEq

/-! ## Python parser (src/core/parsers/python.ts) -/

/-- Model of `getIndentation`: the length of the leading-whitespace match
`^(\s*)`. -/
def getIndentation (line : List Char) : Nat :=
  (line.takeWhile isJsWs).length

/-- Loop body of `findFunctionEnd`: scan from index `i`, skipping blank
lines, and stop at the first line whose indentation is at most
`startIndentation`.  Returns `none` when the scan runs off the end. -/
def findFunctionEndLoop (startIndentation : Nat) : List (List Char) → Nat → Option Nat
  | [], _ => none
  | line :: rest, i =>
    if trimChars line = [] then findFunctionEndLoop startIndentation rest (i + 1)
    else if getIndentation line ≤ startIndentation then some i
    else findFunctionEndLoop startIndentation rest (i + 1)

/-- Model of `findFunctionEnd(lines, startIndex)`: the returned index is the
0-based index of the terminating line, used directly as the (1-based)
`endLine`; when no terminator is found it falls back to `lines.length`. -/
def findFunctionEnd (lines : List (List Char)) (startIndex : Nat) : Nat :=
  (findFunctionEndLoop (getIndentation (lines.getD startIndex []))
      (lines.drop (startIndex + 1)) (startIndex + 1)).getD lines.length

/-- Model of `findClassEnd` (same logic as `findFunctionEnd`). -/
def findClassEnd (lines : List (List Char)) (startIndex : Nat) : Nat :=
  findFunctionEnd lines startIndex

/-- Matcher for the function-header pattern
`^(async\s+)?def\s+([a-zA-Z_][a-zA-Z0-9_]*)\s*\(([^)]*)\)\s*(?:->\s*([^:]+))?\s*:`
applied to the trimmed line.  Returns `(isAsync, name, params, returnType?)`. -/
def matchPythonFuncDef (cs : List Char) : Option (Bool × List Char × List Char × Option (List Char)) :=
  let (isAsync, cs1) :=
    match lit "async".toList cs with
    | some r =>
      match ws1 r with
      | some r2 => (true, r2)
      | none => (false, cs)
    | none => (false, cs)
  match lit "def".toList cs1 with
  | none => none
  | some r3 =>
    match ws1 r3 with
    | none => none
    | some r4 =>
      match ident1 r4 with
      | none => none
      | some (name, r5) =>
        match wsStar r5 with
        | '(' :: r6 =>
          match upToChar ')' r6 with
          | none => none
          | some (params, r7) =>
            match lit "->".toList (wsStar r7) with
            | some r8 =>
              let r9 := wsStar r8
              let ret := r9.takeWhile (· ≠ ':')
              match r9.dropWhile (· ≠ ':') with
              | ':' :: _ => if ret = [] then none else some (isAsync, name, params, some ret)
              | _ => none
            | none =>
              match wsStar r7 with
              | ':' :: _ => some (isAsync, name, params, none)
              | _ => none
        | _ => none

/-- Matcher for `^class\s+([a-zA-Z_][a-zA-Z0-9_]*)\s*(?:\(([^)]*)\))?\s*:`,
returning the class name and, when present, the raw base-class list. -/
def matchPythonClassDef (cs : List Char) : Option (List Char × Option (List Char)) :=
  match lit "class".toList cs with
  | none => none
  | some r1 =>
    match ws1 r1 with
    | none => none
    | some r2 =>
      match ident1 r2 with
      | none => none
      | some (name, r3) =>
        match wsStar r3 with
        | '(' :: r4 =>
          match upToChar ')' r4 with
          | none => none
          | some (bases, r5) =>
            match wsStar r5 with
            | ':' :: _ => some (name, some bases)
            | _ => none
        | ':' :: _ => some (name, none)
        | _ => none

/-- Matcher for `^import\s+([^\s#]+)(?:\s+as\s+([^\s#]+))?`, returning the
module capture and the (captured but later discarded) alias. -/
def matchPythonImport (cs : List Char) : Option (List Char × Option (List Char)) :=
  match lit "import".toList cs with
  | none => none
  | some r1 =>
    match ws1 r1 with
    | none => none
    | some r2 =>
      let module := r2.takeWhile (fun c => !isJsWs c && c ≠ '#')
      if module = [] then none
      else
        let r3 := r2.dropWhile (fun c => !isJsWs c && c ≠ '#')
        let alias? :=
          match ws1 r3 with
          | some r4 =>
            match lit "as".toList r4 with
            | some r5 =>
              match ws1 r5 with
              | some r6 =>
                let a := r6.takeWhile (fun c => !isJsWs c && c ≠ '#')
                if a = [] then none else some a
              | none => none
            | none => none
          | none => none
        some (module, alias?)

/-- Matcher for `^from\s+([^\s]+)\s+import\s+(.+)`, returning the module and
the raw import list. -/
def matchPythonFromImport (cs : List Char) : Option (List Char × List Char) :=
  match lit "from".toList cs with
  | none => none
  | some r1 =>
    match ws1 r1 with
    | none => none
    | some r2 =>
      let module := r2.takeWhile (fun c => !isJsWs c)
      if module = [] then none
      else
        match ws1 (r2.dropWhile (fun c => !isJsWs c)) with
        | none => none
        | some r3 =>
          match lit "import".toList r3 with
          | none => none
          | some r4 =>
            match ws1 r4 with
            | none => none
            | some r5 => if r5 = [] then none else some (module, r5)

/-- Whether a suffix matches `^\s+as\s+(.+)$` — the tail of the greedy split
performed by `^(.+)\s+as\s+(.+)$` on an import-list item. -/
def matchAsClause (cs : List Char) : Bool :=
  match ws1 cs with
  | none => false
  | some r =>
    match lit "as".toList r with
    | none => false
    | some r2 =>
      match r2 with
      | c :: rest => isJsWs c && rest ≠ []
      | [] => false

/-- The split position chosen by the greedy `^(.+)\s+as\s+(.+)$`: the largest
`p ≥ 1` such that the suffix from `p` matches `\s+as\s+(.+)$`. -/
def asSplitIndex (item : List Char) : Option Nat :=
  ((List.range item.length).filter
    (fun p => decide (1 ≤ p) && matchAsClause (item.drop p))).getLast?

/-- The second capture of `^(.+)\s+as\s+(.+)$` on the suffix after the split:
the greedy `\s+` leaves at least one character for `(.+)`. -/
def asClauseTail (suffix : List Char) : List Char :=
  let afterAs := (suffix.dropWhile isJsWs).drop 2
  afterAs.drop (min ((afterAs.takeWhile isJsWs).length) (afterAs.length - 1))

/-- One item of a `from … import …` list, as analysed against
`^(.+)\s+as\s+(.+)$` after trimming. -/
def parseFromSpecifier (item : List Char) : ImportSpecifier :=
  let trimmed := trimChars item
  match asSplitIndex trimmed with
  | some p =>
    { name := ⟨trimChars (asClauseTail (trimmed.drop p))⟩
      type := "named"
      imported := some ⟨trimChars (trimmed.take p)⟩ }
  | none => { name := ⟨trimmed⟩, type := "named", imported := none }

/-- Imports contributed by a single line (model of the `forEach` body of
`parsePythonImports`): a plain-import match pushes one edge per
comma-separated module with the alias discarded, a from-import match pushes
one edge with its specifier list. -/
def parsePythonImportsLine (line : List Char) (index : Nat) : List ImportInfo :=
  let t := trimChars line
  (match matchPythonImport t with
   | some (moduleStr, _alias) =>
     ((splitOnChar ',' moduleStr).map trimChars).map
       (fun module =>
         { source := ⟨module⟩
           specifiers := [{ name := ⟨module⟩, type := "default", imported := none }]
           startLine := index + 1 })
   | none => []) ++
  (match matchPythonFromImport t with
   | some (module, importList) =>
     [{ source := ⟨module⟩
        specifiers := (splitOnChar ',' importList).map parseFromSpecifier
        startLine := index + 1 }]
   | none => [])

/-- Model of `parsePythonImports`. -/
def parsePythonImports (content : String) : List ImportInfo :=
  ((splitOnChar '\n' content.data).enum.map
    (fun p => parsePythonImportsLine p.2 p.1)).flatten

/-- Model of `parseParameters`: split on commas, then analyse each item
against `^([^=]+)=(.+)$` and `^([^:]+):\s*(.+)$` (in that order), defaulting
the type to the `Any` sentinel. -/
def parseParameters (paramString : List Char) : List ParameterInfo :=
  if trimChars paramString = [] then []
  else
    ((splitOnChar ',' paramString).map trimChars).map fun param =>
      let typed (part : List Char) : Option (List Char × List Char) :=
        let pre := part.takeWhile (· ≠ ':')
        match part.dropWhile (· ≠ ':') with
        | ':' :: rest =>
          if pre = [] then none
          else if rest = [] then none
          else
            let lead := min ((rest.takeWhile isJsWs).length) (rest.length - 1)
            some (pre, rest.drop lead)
        | _ => none
      let eqPre := param.takeWhile (· ≠ '=')
      match param.dropWhile (· ≠ '=') with
      | '=' :: eqRest =>
        if eqPre = [] ∨ eqRest = [] then
          match typed param with
          | some (n, ty) => { name := ⟨trimChars n⟩, type := ⟨trimChars ty⟩ }
          | none => { name := ⟨param⟩, type := "Any" }
        else
          let paramPart := trimChars eqPre
          let defaultValue := trimChars eqRest
          match typed paramPart with
          | some (n, ty) =>
            { name := ⟨trimChars n⟩, type := ⟨trimChars ty⟩, defaultValue := some ⟨defaultValue⟩ }
          | none => { name := ⟨paramPart⟩, type := "Any", defaultValue := some ⟨defaultValue⟩ }
      | _ =>
        match typed param with
        | some (n, ty) => { name := ⟨trimChars n⟩, type := ⟨trimChars ty⟩ }
        | none => { name := ⟨param⟩, type := "Any" }

/-- Accumulating scan of `extractPythonDocstring`'s multi-line loop: append
each line (prefixed by a newline) until one contains the closing marker, in
which case only the part before the marker is kept. -/
def docstringScan (quote : List Char) : List (List Char) → List Char → List Char
  | [], acc => acc
  | l :: rest, acc =>
    match indexOfSub l quote with
    | some idx => acc ++ '\n' :: l.take idx
    | none => docstringScan quote rest (acc ++ '\n' :: l)

/-- Model of `extractPythonDocstring(lines, startIndex)`. -/
def extractPythonDocstring (lines : List (List Char)) (startIndex : Nat) : Option String :=
  if startIndex < lines.length then
    let line := trimChars (lines.getD startIndex [])
    let tripleDouble : List Char := ['"', '"', '"']
    let tripleSingle : List Char := [singleQuote, singleQuote, singleQuote]
    if tripleDouble.isPrefixOf line || tripleSingle.isPrefixOf line then
      let quote := if tripleDouble.isPrefixOf line then tripleDouble else tripleSingle
      if quote.isSuffixOf line ∧ line.length > 6 then
        some ⟨trimChars ((line.drop 3).take (line.length - 6))⟩
      else
        some ⟨trimChars (docstringScan quote (lines.drop (startIndex + 1)) (line.drop 3))⟩
    else none
  else none

/-- Model of `parsePythonFunctions` over pre-split lines. -/
def parsePythonFunctionsLines (lines : List (List Char)) : List FunctionInfo :=
  (List.range lines.length).filterMap fun i =>
    match matchPythonFuncDef (trimChars (lines.getD i [])) with
    | none => none
    | some (isAsync, name, params, retOpt) =>
      some
        { name := ⟨name⟩
          parameters := parseParameters params
          returnType :=
            match retOpt with
            | some r => if trimChars r = [] then "Any" else ⟨trimChars r⟩
            | none => "Any"
          isAsync := isAsync
          isGenerator := false
          comments := extractPythonDocstring lines (i + 1)
          startLine := i + 1
          endLine := findFunctionEnd lines i }

/-- Model of `parsePythonFunctions(content)`. -/
def parsePythonFunctions (content : String) : List FunctionInfo :=
  parsePythonFunctionsLines (splitOnChar '\n' content.data)

/-- Model of `extractClassContent`. -/
def extractClassContent (lines : List (List Char)) (classStartIndex : Nat) : List (List Char) :=
  (lines.take (findClassEnd lines classStartIndex)).drop (classStartIndex + 1)

/-- Model of `parsePythonMethods(classLines, baseLineNumber)`: re-parse the
class body as its own source and shift the line numbers. -/
def parsePythonMethods (classLines : List (List Char)) (baseLineNumber : Nat) : List FunctionInfo :=
  (parsePythonFunctionsLines (splitOnChar '\n' (List.intercalate ['\n'] classLines))).map
    fun m => { m with startLine := m.startLine + baseLineNumber, endLine := m.endLine + baseLineNumber }

/-- Model of `parsePythonClasses`. -/
def parsePythonClasses (content : String) : List ClassInfo :=
  let lines := splitOnChar '\n' content.data
  (List.range lines.length).filterMap fun i =>
    match matchPythonClassDef (trimChars (lines.getD i [])) with
    | none => none
    | some (className, bases?) =>
      let superClasses : List (List Char) :=
        match bases? with
        | some bases => if bases = [] then [] else (splitOnChar ',' bases).map trimChars
        | none => []
      some
        { name := ⟨className⟩
          methods := parsePythonMethods (extractClassContent lines i) (i + 1)
          properties := []
          constructorInfo := none
          superClass := (superClasses.head?).map (⟨·⟩)
          comments := extractPythonDocstring lines (i + 1)
          startLine := i + 1
          endLine := findClassEnd lines i }

/-- Matcher for `^__all__\s*=\s*\[([^\]]+)\]`. -/
def matchPythonAll (cs : List Char) : Option (List Char) :=
  match lit "__all__".toList cs with
  | none => none
  | some r1 =>
    match wsStar r1 with
    | '=' :: r2 =>
      match wsStar r2 with
      | '[' :: r3 =>
        match upToChar ']' r3 with
        | some (inner, _) => if inner = [] then none else some inner
        | none => none
      | _ => none
    | _ => none

/-- Model of `parsePythonExports`: `__all__` entries become `named` exports,
each trimmed and stripped of every quote character. -/
def parsePythonExports (content : String) : List ExportInfo :=
  ((splitOnChar '\n' content.data).enum.map fun p =>
    match matchPythonAll (trimChars p.2) with
    | some inner =>
      ((splitOnChar ',' inner).map fun item =>
        (trimChars item).filter (fun c => c ≠ '"' ∧ c ≠ singleQuote)).map
        fun name => ({ name := ⟨name⟩, type := "named", startLine := p.1 + 1 } : ExportInfo)
    | none => []).flatten

/-- Model of `parsePython(content, baseResult)`. -/
def parsePython (content : String) (baseResult : ParsedCodeFile) : ParsedCodeFile :=
  { baseResult with
    imports := parsePythonImports content
    functions := parsePythonFunctions content
    classes := parsePythonClasses content
    exports := parsePythonExports content }

/-! ## Go parser (src/core/parsers/go.ts section of src/core/parsers/index.ts) -/

/-- Character scan of one line inside `findGoFunctionEnd`: `some (bc, fo)`
is the updated `(braceCount, foundOpenBrace)` state, `none` means the count
returned to zero on this line after an opening brace had been seen. -/
def goScanLine : List Char → Int → Bool → Option (Int × Bool)
  | [], bc, fo => some (bc, fo)
  | c :: rest, bc, fo =>
    if c = openBrace then goScanLine rest (bc + 1) true
    else if c = closeBrace then
      if fo ∧ bc - 1 = 0 then none else goScanLine rest (bc - 1) fo
    else goScanLine rest bc fo

/-- Line loop of `findGoFunctionEnd`: returns `some (i + 1)` for the first
line index `i` on which the scan closes. -/
def findGoFunctionEndLoop : List (List Char) → Nat → Int → Bool → Option Nat
  | [], _, _, _ => none
  | line :: rest, i, bc, fo =>
    match goScanLine line bc fo with
    | none => some (i + 1)
    | some (bc2, fo2) => findGoFunctionEndLoop rest (i + 1) bc2 fo2

/-- Model of `findGoFunctionEnd(lines, startIndex)`: brace-depth counting
from the header line, falling back to `lines.length`. -/
def findGoFunctionEnd (lines : List (List Char)) (startIndex : Nat) : Nat :=
  (findGoFunctionEndLoop (lines.drop startIndex) startIndex 0 false).getD lines.length

/-- Model of `findGoStructEnd` (same brace-counting logic). -/
def findGoStructEnd (lines : List (List Char)) (startIndex : Nat) : Nat :=
  findGoFunctionEnd lines startIndex

/-- Tail of the Go function-header pattern after the parameter list:
`\s*(?:\(([^)]*)\)|([^{]+))?\s*\{?` with the JavaScript coalescing
`funcMatch[3] || funcMatch[4] || ''` applied, returning the raw
return-types text. -/
def goReturnCapture (cs : List Char) : List Char :=
  match wsStar cs with
  | '(' :: r8 =>
    match upToChar ')' r8 with
    | some (g3, _) => g3
    | none =>
      -- the parenthesised alternative fails without a closing brace, and
      -- the second alternative `([^{]+)` matches from the `(` onwards
      (wsStar cs).takeWhile (· ≠ openBrace)
  | rest =>
    let g4 := rest.takeWhile (· ≠ openBrace)
    g4

/-- Matcher for the function-header pattern
`^func(?:\s+\([^)]*\))?\s+([a-zA-Z_][a-zA-Z0-9_]*)\s*\(([^)]*)\)\s*(?:\(([^)]*)\)|([^{]+))?\s*\{?`
on the trimmed line, returning `(name, params, returnTypes)`. -/
def matchGoFunc (cs : List Char) : Option (List Char × List Char × List Char) :=
  match lit "func".toList cs with
  | none => none
  | some r0 =>
    let afterReceiver :=
      match ws1 r0 with
      | some ('(' :: r2) =>
        match upToChar ')' r2 with
        | some (_, r3) => some r3
        | none => none
      | _ => none
    let body := afterReceiver.getD r0
    match ws1 body with
    | none => none
    | some r4 =>
      match ident1 r4 with
      | none => none
      | some (name, r5) =>
        match wsStar r5 with
        | '(' :: r6 =>
          match upToChar ')' r6 with
          | none => none
          | some (params, r7) => some (name, params, goReturnCapture r7)
        | _ => none

/-- Model of `parseGoParameters`. -/
def parseGoParameters (paramString : List Char) : List ParameterInfo :=
  if trimChars paramString = [] then []
  else
    (splitOnChar ',' paramString).map fun p =>
      let trimmed := trimChars p
      let parts : List (List Char) :=
        if trimmed = [] then [[]]
        else List.splitOnP isJsWs trimmed |>.filter (· ≠ []) |>.map id
      match parts with
      | [] => { name := "unknown", type := "interface\x7b\x7d" }
      | [single] => { name := "_", type := ⟨single⟩ }
      | first :: restParts =>
        { name := ⟨first⟩, type := ⟨List.intercalate [' '] restParts⟩ }

/-- Model of `parseGoReturnType`. -/
def parseGoReturnType (returnString : List Char) : String :=
  if returnString = [] then "void"
  else if returnString.contains ',' then ⟨'(' :: returnString ++ [')']⟩
  else ⟨returnString⟩

/-- Upward scan of `extractGoComments` over the reversed prefix of lines
above the header: single-line and block comments are collected (nearest
last), blank lines skipped, anything else stops the scan. -/
def extractGoCommentsLoop : List (List Char) → List (List Char) → List (List Char)
  | [], acc => acc
  | l :: rest, acc =>
    let t := trimChars l
    if ("//".toList).isPrefixOf t then
      extractGoCommentsLoop rest (trimChars (t.drop 2) :: acc)
    else if ("/*".toList).isPrefixOf t ∧ ("*/".toList).isSuffixOf t then
      extractGoCommentsLoop rest (trimChars ((t.drop 2).take (t.length - 4)) :: acc)
    else if t = [] then extractGoCommentsLoop rest acc
    else acc

/-- Model of `extractGoComments(lines, lineIndex)`. -/
def extractGoComments (lines : List (List Char)) (lineIndex : Nat) : Option String :=
  match extractGoCommentsLoop (lines.take lineIndex).reverse [] with
  | [] => none
  | comments => some ⟨List.intercalate ['\n'] comments⟩

/-- Model of `parseGoFunctions` over pre-split lines. -/
def parseGoFunctionsLines (lines : List (List Char)) : List FunctionInfo :=
  (List.range lines.length).filterMap fun i =>
    match matchGoFunc (trimChars (lines.getD i [])) with
    | none => none
    | some (name, params, returnTypes) =>
      some
        { name := ⟨name⟩
          parameters := parseGoParameters params
          returnType := parseGoReturnType (trimChars returnTypes)
          isAsync := false
          isGenerator := false
          comments := extractGoComments lines i
          startLine := i + 1
          endLine := findGoFunctionEnd lines i }

/-- Model of `parseGoFunctions(content)`. -/
def parseGoFunctions (content : String) : List FunctionInfo :=
  parseGoFunctionsLines (splitOnChar '\n' content.data)

/-- Matcher for `^type\s+([a-zA-Z_][a-zA-Z0-9_]*)\s+struct\s*\{?`. -/
def matchGoStruct (cs : List Char) : Option (List Char) :=
  match lit "type".toList cs with
  | none => none
  | some r1 =>
    match ws1 r1 with
    | none => none
    | some r2 =>
      match ident1 r2 with
      | none => none
      | some (name, r3) =>
        match ws1 r3 with
        | none => none
        | some r4 =>
          match lit "struct".toList r4 with
          | none => none
          | some _ => some name

/-- Matcher for the struct-field pattern
`^([a-zA-Z_][a-zA-Z0-9_]*)\s+([^\/\s]+)(?:\s*\/\/\s*(.*))?`; the comment
capture is coalesced with `|| undefined`, so an empty comment is dropped. -/
def matchGoField (cs : List Char) : Option (List Char × List Char × Option (List Char)) :=
  match ident1 cs with
  | none => none
  | some (name, r1) =>
    match ws1 r1 with
    | none => none
    | some r2 =>
      let ty := r2.takeWhile (fun c => c ≠ '/' && !isJsWs c)
      if ty = [] then none
      else
        let r3 := wsStar (r2.dropWhile (fun c => c ≠ '/' && !isJsWs c))
        let comment :=
          match lit "//".toList r3 with
          | some r4 => (if wsStar r4 = [] then none else some (wsStar r4))
          | none => none
        some (name, ty, comment)

/-- Field loop of `extractGoStructFields` over the line slice strictly
between the header and the computed struct end, with the early `break` on a
bare closing brace. -/
def goStructFieldsLoop : List (List Char) → List PropertyInfo
  | [] => []
  | l :: rest =>
    let t := trimChars l
    if t = [] ∨ ("//".toList).isPrefixOf t ∨ ("/*".toList).isPrefixOf t then
      goStructFieldsLoop rest
    else if t = [closeBrace] then []
    else
      match matchGoField t with
      | some (n, ty, com) =>
        { name := ⟨n⟩, type := ⟨ty⟩, comments := com.map (⟨·⟩) } :: goStructFieldsLoop rest
      | none => goStructFieldsLoop rest

/-- Model of `extractGoStructFields(lines, structStartIndex)`. -/
def extractGoStructFields (lines : List (List Char)) (structStartIndex : Nat) : List PropertyInfo :=
  goStructFieldsLoop
    ((lines.take (findGoStructEnd lines structStartIndex)).drop (structStartIndex + 1))

/-- Matcher for the method pattern built by `findGoStructMethods`:
`^func\s+\([^)]*\*?NAME[^)]*\)\s+(ident)\s*\((params)\)…` — the receiver
text up to the first closing parenthesis must contain the struct name. -/
def matchGoMethod (structName : List Char) (cs : List Char) : Option (List Char × List Char × List Char) :=
  match lit "func".toList cs with
  | none => none
  | some r0 =>
    match ws1 r0 with
    | some ('(' :: r2) =>
      match upToChar ')' r2 with
      | none => none
      | some (receiver, r3) =>
        if hasSub receiver structName then
          match ws1 r3 with
          | none => none
          | some r4 =>
            match ident1 r4 with
            | none => none
            | some (name, r5) =>
              match wsStar r5 with
              | '(' :: r6 =>
                match upToChar ')' r6 with
                | none => none
                | some (params, r7) => some (name, params, goReturnCapture r7)
              | _ => none
        else none
    | _ => none

/-- Model of `findGoStructMethods(content, structName)`. -/
def findGoStructMethods (content : String) (structName : String) : List FunctionInfo :=
  let lines := splitOnChar '\n' content.data
  (List.range lines.length).filterMap fun i =>
    match matchGoMethod structName.data (trimChars (lines.getD i [])) with
    | none => none
    | some (name, params, returnTypes) =>
      some
        { name := ⟨name⟩
          parameters := parseGoParameters params
          returnType := parseGoReturnType (trimChars returnTypes)
          isAsync := false
          isGenerator := false
          comments := extractGoComments lines i
          startLine := i + 1
          endLine := findGoFunctionEnd lines i }

/-- Model of `parseGoStructs(content)`. -/
def parseGoStructs (content : String) : List ClassInfo :=
  let lines := splitOnChar '\n' content.data
  (List.range lines.length).filterMap fun i =>
    match matchGoStruct (trimChars (lines.getD i [])) with
    | none => none
    | some structName =>
      some
        { name := ⟨structName⟩
          methods := findGoStructMethods content ⟨structName⟩
          properties := extractGoStructFields lines i
          constructorInfo := none
          superClass := none
          comments := extractGoComments lines i
          startLine := i + 1
          endLine := findGoStructEnd lines i }

/-- The export test of `parseGoExports`:
`name[0] === name[0].toUpperCase()` on the (always non-empty) symbol name.
Note this is not the same as the first character being an upper-case
letter: an underscore is unchanged by `toUpperCase` and so passes. -/
def jsFirstCharUpperEq (name : String) : Bool :=
  match name.data with
  | [] => false
  | c :: _ => c.toUpper = c

/-- Model of `parseGoExports(content, functions, structs)` (the `content`
argument is unused by the source as well). -/
def parseGoExports (content : String) (functions : List FunctionInfo)
    (structs : List ClassInfo) : List ExportInfo :=
  let _ := content
  (functions.filter (fun f => jsFirstCharUpperEq f.name)).map
    (fun f => { name := f.name, type := "function", startLine := f.startLine }) ++
  (structs.filter (fun s => jsFirstCharUpperEq s.name)).map
    (fun s => { name := s.name, type := "struct", startLine := s.startLine })

/-- Matcher for the single-import pattern `^import\s+"([^"]+)"$` (anchored
at the end of the line). -/
def matchGoSingleImport (cs : List Char) : Option (List Char) :=
  match lit "import".toList cs with
  | none => none
  | some r1 =>
    match ws1 r1 with
    | none => none
    | some ('"' :: r2) =>
      match upToChar '"' r2 with
      | some (ipath, rest) => if ipath ≠ [] ∧ rest = [] then some ipath else none
      | none => none
    | some _ => none

/-- Matcher for a line inside an import block:
`^(?:([a-zA-Z_][a-zA-Z0-9_]*)\s+)?"([^"]+)"$`. -/
def matchGoBlockImport (cs : List Char) : Option (Option (List Char) × List Char) :=
  let quoted (rest : List Char) : Option (List Char) :=
    match rest with
    | '"' :: r =>
      match upToChar '"' r with
      | some (ipath, tail) => if ipath ≠ [] ∧ tail = [] then some ipath else none
      | none => none
    | _ => none
  match ident1 cs with
  | some (aliasName, r1) =>
    (match ws1 r1 with
     | some r2 =>
       match quoted r2 with
       | some ipath => some (some aliasName, ipath)
       | none => (quoted cs).map (fun p => (none, p))
     | none => (quoted cs).map (fun p => (none, p)))
  | none => (quoted cs).map (fun p => (none, p))

/-- Package name derived from an import path:
`importPath.split('/').pop() || importPath`. -/
def goPackageName (ipath : List Char) : List Char :=
  match (splitOnChar '/' ipath).getLast? with
  | some seg => if seg = [] then ipath else seg
  | none => ipath

/-- Line loop of `parseGoImports`, carrying the in-block flag and the
1-based line number of the `import (` opener. -/
def parseGoImportsLoop : List (List Char) → Nat → Bool → Nat → List ImportInfo
  | [], _, _, _ => []
  | l :: rest, idx, inBlock, blockStart =>
    let t := trimChars l
    match matchGoSingleImport t with
    | some ipath =>
      { source := ⟨ipath⟩
        specifiers := [{ name := ⟨goPackageName ipath⟩, type := "default", imported := none }]
        startLine := idx + 1 } :: parseGoImportsLoop rest (idx + 1) inBlock blockStart
    | none =>
      if t = "import (".toList then parseGoImportsLoop rest (idx + 1) true (idx + 1)
      else if inBlock ∧ t = [')'] then parseGoImportsLoop rest (idx + 1) false blockStart
      else if inBlock then
        match matchGoBlockImport t with
        | some (alias?, ipath) =>
          { source := ⟨ipath⟩
            specifiers :=
              [{ name := ⟨(alias?.getD (goPackageName ipath))⟩
                 type := "default"
                 imported := match alias? with | some _ => some ⟨ipath⟩ | none => none }]
            startLine := blockStart } :: parseGoImportsLoop rest (idx + 1) inBlock blockStart
        | none => parseGoImportsLoop rest (idx + 1) inBlock blockStart
      else parseGoImportsLoop rest (idx + 1) inBlock blockStart

/-- Model of `parseGoImports(content)`. -/
def parseGoImports (content : String) : List ImportInfo :=
  parseGoImportsLoop (splitOnChar '\n' content.data) 0 false 0

/-- Model of `parseGo(content, baseResult)`. -/
def parseGo (content : String) (baseResult : ParsedCodeFile) : ParsedCodeFile :=
  let functions := parseGoFunctions content
  let classes := parseGoStructs content
  { baseResult with
    imports := parseGoImports content
    functions := functions
    classes := classes
    exports := parseGoExports content functions classes }

/-! ## Externally generated documentation (types/index.ts, AI response shape)

The prose service returns an object with `title`, `description`, and
per-symbol documentation; these records mirror the `Generated*Doc`
interfaces.  Fields the runtime objects never carry (`isAsync`, `isStatic`,
`visibility`, `superClass`, `typeDefinition` on generated docs) are absent
here, so the corresponding truthiness tests in the HTML builders are
vacuously false, exactly as at runtime. -/

structure GeneratedParamDoc where
  name : String
  type : String
  description : Option String := none
  defaultValue : Option String := none
deriving Repr, DecidableEq

structure GeneratedReturnsDoc where
  type : String
  description : Option String := none
deriving Repr, DecidableEq

structure GeneratedFunctionDoc where
  name : String
  description : Option String := none
  parameters : List GeneratedParamDoc := []
  returns : GeneratedReturnsDoc
  exampleText : Option String := none  -- the `example` field; renamed, `example` is reserved
deriving Repr, DecidableEq

structure GeneratedPropertyDoc where
  name : String
  type : String
  description : Option String := none
deriving Repr, DecidableEq

structure GeneratedClassDoc where
  name : String
  description : Option String := none
  methods : List GeneratedFunctionDoc := []
  properties : List GeneratedPropertyDoc := []
deriving Repr, DecidableEq

structure GeneratedExportDoc where
  name : String
  type : String
  description : Option String := none
deriving Repr, DecidableEq

structure GeneratedDocumentation where
  title : Option String := none
  description : Option String := none
  functions : List GeneratedFunctionDoc := []
  classes : List GeneratedClassDoc := []
  exports : List GeneratedExportDoc := []
  usage : Option String := none
  notes : Option String := none
deriving Repr, DecidableEq

/-- One entry of the `documentationResults` array assembled by the generate
command: source file path, parse result, and merged prose. -/
structure DocumentationResult where
  file : String
  parsedCode : ParsedCodeFile
  documentation : GeneratedDocumentation
deriving Repr, DecidableEq

/-! ## Generate-command batch loop (cli/commands/generate.ts)

Per file the loop parses, skips files without documentable code, calls the
prose service, and pushes a result; any exception (parse failure or prose
failure, the latter rethrown by `OpenAIClient.generateDocumentation`) is
caught, logged, and answered with `continue` — the file contributes nothing
to `documentationResults`. -/

deriving instance DecidableEq for Except

/-- A file of the batch together with the outcomes of its two fallible
steps (`parseCode` and the prose-service call), each modelled as the
`Except` the surrounding `try` observes. -/
structure FileJob where
  file : String
  parseOutcome : Except String ParsedCodeFile
  proseOutcome : Except String GeneratedDocumentation
deriving Repr, DecidableEq

/-- Model of the error wrapping in `OpenAIClient.generateDocumentation`
(lines 55–61): a failing service call is rethrown as
`Failed to generate documentation: …`; a successful one is passed through. -/
def openAIGenerateDocumentation (serviceOutcome : Except String GeneratedDocumentation) :
    Except String GeneratedDocumentation :=
  match serviceOutcome with
  | Except.ok doc => Except.ok doc
  | Except.error msg => Except.error ("Failed to generate documentation: " ++ msg)

/-- Model of the per-file loop of the generate command. -/
def processBatch (jobs : List FileJob) : List DocumentationResult :=
  jobs.filterMap fun job =>
    match job.parseOutcome with
    | Except.error _ => none
    | Except.ok parsedCode =>
      if parsedCode.functions.length = 0 ∧ parsedCode.classes.length = 0 then none
      else
        match job.proseOutcome with
        | Except.error _ => none
        | Except.ok documentation => some ⟨job.file, parsedCode, documentation⟩

/-! ## Path helpers (Node `path` builtins as used by the generators) -/

/-- Model of `path.basename(file)` (trailing-separator handling aside,
which the generators never meet). -/
def jsBasename (file : String) : String :=
  ⟨(splitOnChar '/' file.data).getLastD []⟩

/-- Base name with the extension stripped, as computed by
`path.basename(file, path.extname(file))`: the suffix from the last dot is
removed unless that dot is the first character of the base name. -/
def jsBasenameNoExt (file : String) : String :=
  let b := (jsBasename file).data
  let afterDot := (b.reverse.takeWhile (· ≠ '.')).length
  if afterDot = b.length then ⟨b⟩
  else if b.length - afterDot - 1 = 0 then ⟨b⟩
  else ⟨b.take (b.length - afterDot - 1)⟩

/-- Model of `path.relative(cwd, file)` for the resolved absolute paths the
tool produces (the file lives under the working directory). -/
def jsRelative (cwd file : String) : String :=
  if (cwd.data ++ ['/']).isPrefixOf file.data then ⟨file.data.drop (cwd.data.length + 1)⟩
  else file

/-! ## Combined JSON artifact (src/core/generators/json.ts) -/

/-- Model of a JavaScript object used as a string-keyed map: assignment
overwrites the value of an existing key in place and appends new keys. -/
def jsObjectSet {α : Type} : List (String × α) → String → α → List (String × α)
  | [], k, v => [(k, v)]
  | (k', v') :: rest, k, v =>
    if k' = k then (k', v) :: rest else (k', v') :: jsObjectSet rest k v

/-- Property lookup on the same map model. -/
def jsObjectGet {α : Type} : List (String × α) → String → Option α
  | [], _ => none
  | (k', v) :: rest, k => if k' = k then some v else jsObjectGet rest k

/-- Model of `[...new Set(l)]`: deduplication preserving the order of first
occurrence. -/
def jsSetDedup (l : List String) : List String :=
  l.foldl (fun acc x => if x ∈ acc then acc else acc ++ [x]) []

structure CombinedMeta where
  projectName : String
  generatedAt : String
  generatedBy : String
  totalFiles : Nat
  outputFormat : String
  style : String
deriving Repr, DecidableEq

structure CombinedSummary where
  totalFunctions : Nat
  totalClasses : Nat
  totalExports : Nat
  languages : List String
deriving Repr, DecidableEq

structure CombinedFileEntry where
  file : String
  language : String
  title : String
  description : Option String
  functionsCount : Nat
  classesCount : Nat
  exportsCount : Nat
  sourceLines : Nat
deriving Repr, DecidableEq

structure CombinedDocEntry where
  file : String
  language : String
  documentation : GeneratedDocumentation
deriving Repr, DecidableEq

structure CombinedData where
  meta : CombinedMeta
  summary : CombinedSummary
  files : List CombinedFileEntry
  documentation : List (String × CombinedDocEntry)
deriving Repr, DecidableEq

/-- The per-file entry stored under the de-duplicated base file name by the
`reduce` in `generateCombinedJSON`. -/
def mkCombinedDocEntry (cwd : String) (r : DocumentationResult) : CombinedDocEntry :=
  { file := jsRelative cwd r.file
    language := r.parsedCode.language
    documentation := r.documentation }

/-- Model of the `combinedData` object built by `generateCombinedJSON`
(the wall-clock timestamp and `process.cwd()` enter as parameters). -/
def generateCombinedJSONData (results : List DocumentationResult)
    (cwd now style : String) : CombinedData :=
  { meta :=
      { projectName := jsBasename cwd
        generatedAt := now
        generatedBy := "Auto-Docs CLI"
        totalFiles := results.length
        outputFormat := "json"
        style := style }
    summary :=
      { totalFunctions := results.foldl (fun sum r => sum + r.documentation.functions.length) 0
        totalClasses := results.foldl (fun sum r => sum + r.documentation.classes.length) 0
        totalExports := results.foldl (fun sum r => sum + r.documentation.exports.length) 0
        languages := jsSetDedup (results.map (fun r => r.parsedCode.language)) }
    files :=
      results.map fun r =>
        { file := jsRelative cwd r.file
          language := r.parsedCode.language
          title := jsOr r.documentation.title (jsBasename r.file)
          description := r.documentation.description
          functionsCount := r.documentation.functions.length
          classesCount := r.documentation.classes.length
          exportsCount := r.documentation.exports.length
          sourceLines := (splitOnChar '\n' r.parsedCode.content.data).length }
    documentation :=
      results.foldl
        (fun acc r => jsObjectSet acc (jsBasenameNoExt r.file) (mkCombinedDocEntry cwd r)) [] }

/-! ## HTML renderer (src/core/generators/html.ts)

The template text is a parameter (the source obtains it from an external
file via `loadHTMLTemplate`, falling back to a built-in default); the
generation date is a parameter as well.  Substitution is the literal chain
of `String.prototype.replace` calls of `generateHTMLForFile`, i.e. a
single-pass first-occurrence replacement per slot marker; a marker absent
from the template is simply not substituted, and no validation of the
template takes place anywhere. -/

def titleSlot : String := "\x7b\x7bTITLE\x7d\x7d"
def filePathSlot : String := "\x7b\x7bFILE_PATH\x7d\x7d"
def languageSlot : String := "\x7b\x7bLANGUAGE\x7d\x7d"
def descriptionSlot : String := "\x7b\x7bDESCRIPTION\x7d\x7d"
def tocSlot : String := "\x7b\x7bTABLE_OF_CONTENTS\x7d\x7d"
def functionsSlot : String := "\x7b\x7bFUNCTIONS\x7d\x7d"
def classesSlot : String := "\x7b\x7bCLASSES\x7d\x7d"
def exportsSlot : String := "\x7b\x7bEXPORTS\x7d\x7d"
def usageSlot : String := "\x7b\x7bUSAGE\x7d\x7d"
def notesSlot : String := "\x7b\x7bNOTES\x7d\x7d"
def generatedDateSlot : String := "\x7b\x7bGENERATED_DATE\x7d\x7d"

/-- The truthiness of an optional string field, as tested by `x ? … : ''`. -/
def jsTruthyStr (o : Option String) : Bool :=
  match o with
  | some s => s ≠ ""
  | none => false

/-- Model of `generateFunctionHTML`.  The badge branches test `isAsync`,
`isStatic` and `visibility`, none of which exist on a generated function
doc at runtime, so they contribute nothing. -/
def generateFunctionHTML (func : GeneratedFunctionDoc) : String :=
  let params := String.intercalate ", " (func.parameters.map fun p =>
    p.name ++ (if p.type ≠ "any" then ": " ++ p.type else "") ++
      (match p.defaultValue with
       | some d => if d ≠ "" then " = " ++ d else ""
       | none => ""))
  let returnTypeStr := if func.returns.type ≠ "any" then " → " ++ func.returns.type else ""
  let parametersHTML :=
    if func.parameters.length ≠ 0 then
      "\n    <div class=\"parameters\">\n      <h4>Parameters:</h4>\n      " ++
      String.join (func.parameters.map fun param =>
        "\n        <div class=\"param\">\n          <span class=\"param-name\">" ++ param.name ++
        "</span>\n          <span class=\"param-type\">" ++ param.type ++ "</span>\n          " ++
        (match param.defaultValue with
         | some d => if d ≠ "" then "<em>(default: " ++ d ++ ")</em>" else ""
         | none => "") ++
        "\n          <div>" ++ (match param.description with
          | some d => if d ≠ "" then d else "No description"
          | none => "No description") ++ "</div>\n        </div>\n      ") ++
      "\n    </div>\n  "
    else ""
  let returnsHTML :=
    if func.returns.type ≠ "void" then
      "\n    <div class=\"returns\">\n      <h4>Returns:</h4>\n      <div class=\"param\">\n        <span class=\"param-type\">" ++
      func.returns.type ++ "</span>\n        <div>" ++
      (match func.returns.description with
       | some d => if d ≠ "" then d else "No description"
       | none => "No description") ++
      "</div>\n      </div>\n    </div>\n  "
    else ""
  let exampleHTML :=
    match func.exampleText with
    | some e =>
      if e ≠ "" then
        "\n    <div class=\"example\">\n      <h4>Example:</h4>\n      <pre><code>" ++ e ++
        "</code></pre>\n    </div>\n  "
      else ""
    | none => ""
  "\n    <div class=\"section\">\n      <h2>Functions</h2>\n      <div class=\"function\" id=\"func-" ++
  func.name ++ "\">\n        <h3>" ++ func.name ++ "</h3>\n        " ++
  (match func.description with
   | some d => if d ≠ "" then "<p>" ++ d ++ "</p>" else ""
   | none => "") ++
  "\n        \n        <div class=\"signature\">\n          <strong>Signature:</strong> " ++
  func.name ++ "(" ++ params ++ ")" ++ returnTypeStr ++
  "\n        </div>\n        \n        " ++ parametersHTML ++
  "\n        " ++ returnsHTML ++ "\n        " ++ exampleHTML ++
  "\n      </div>\n    </div>\n  "

/-- Model of `generateClassHTML` (the `superClass` test is vacuous on
generated class docs; see the section comment). -/
def generateClassHTML (cls : GeneratedClassDoc) : String :=
  let propertiesHTML :=
    if cls.properties.length ≠ 0 then
      "\n    <div class=\"properties\">\n      <h4>Properties:</h4>\n      " ++
      String.join (cls.properties.map fun prop =>
        "\n          <div class=\"param\">\n            \n            <span class=\"param-name\">" ++
        prop.name ++ "</span>\n            <span class=\"param-type\">" ++ prop.type ++
        "</span>\n            \n            <div>" ++
        (match prop.description with
         | some d => if d ≠ "" then d else "No description"
         | none => "No description") ++
        "</div>\n          </div>\n        ") ++
      "\n    </div>\n  "
    else ""
  let methodsHTML :=
    if cls.methods.length ≠ 0 then
      "\n    <div class=\"methods\">\n      <h4>Methods:</h4>\n      " ++
      String.join (cls.methods.map fun method =>
        "\n        <div class=\"method\">\n          " ++ generateFunctionHTML method ++
        "\n        </div>\n      ") ++
      "\n    </div>\n  "
    else ""
  "\n    <div class=\"section\">\n      <h2>Classes</h2>\n      <div class=\"class\" id=\"class-" ++
  cls.name ++ "\">\n        <h3>" ++ cls.name ++ "</h3>\n        " ++
  (match cls.description with
   | some d => if d ≠ "" then "<p>" ++ d ++ "</p>" else ""
   | none => "") ++
  "\n        \n        \n        " ++ propertiesHTML ++ "\n        " ++ methodsHTML ++
  "\n      </div>\n    </div>\n  "

/-- Model of `generateExportHTML` (generated export docs never carry a
`typeDefinition`, so that branch is vacuous). -/
def generateExportHTML (exp : GeneratedExportDoc) : String :=
  "\n    <div class=\"export\" id=\"export-" ++ exp.name ++ "\">\n      <h3>" ++ exp.name ++
  "</h3>\n      <p><strong>Type:</strong> <code>" ++ exp.type ++ "</code></p>\n      " ++
  (match exp.description with
   | some d => if d ≠ "" then "<p>" ++ d ++ "</p>" else ""
   | none => "") ++
  "\n      \n    </div>\n  "

/-- Model of `generateTableOfContents`. -/
def generateTableOfContents (documentation : GeneratedDocumentation) : String :=
  let sections : List String :=
    (if documentation.functions.length ≠ 0 then
      ["\n      <h3>Functions</h3>\n      <ul>" ++
       String.join (documentation.functions.map fun func =>
         "<li><a href=\"#func-" ++ func.name ++ "\">" ++ func.name ++ "()</a></li>") ++
       "</ul>\n    "]
     else []) ++
    (if documentation.classes.length ≠ 0 then
      ["\n      <h3>Classes</h3>\n      <ul>" ++
       String.join (documentation.classes.map fun cls =>
         "<li><a href=\"#class-" ++ cls.name ++ "\">" ++ cls.name ++ "</a></li>") ++
       "</ul>\n    "]
     else []) ++
    (if documentation.exports.length ≠ 0 then
      ["\n      <h3>Exports</h3>\n      <ul>" ++
       String.join (documentation.exports.map fun exp =>
         "<li><a href=\"#export-" ++ exp.name ++ "\">" ++ exp.name ++ "</a></li>") ++
       "</ul>\n    "]
     else [])
  if sections.length = 0 then ""
  else
    "\n    <div class=\"toc\">\n      <h2>Table of Contents</h2>\n      " ++
    String.join sections ++ "\n    </div>\n  "

/-- The replacement chain of `generateHTMLForFile` (source lines 39–50):
one single-pass, first-occurrence, literal replacement per named slot. -/
def applyHTMLTemplate (template title filePath language description toc functionsHTML
    classesHTML exportsHTML usage notes generatedDate : String) : String :=
  replaceFirst (replaceFirst (replaceFirst (replaceFirst (replaceFirst (replaceFirst
    (replaceFirst (replaceFirst (replaceFirst (replaceFirst (replaceFirst
      template titleSlot title)
      filePathSlot filePath)
      languageSlot language)
      descriptionSlot description)
      tocSlot toc)
      functionsSlot functionsHTML)
      classesSlot classesHTML)
      exportsSlot exportsHTML)
      usageSlot usage)
      notesSlot notes)
      generatedDateSlot generatedDate

/-- Model of `generateHTMLForFile`: build the section strings from the
documentation and substitute them into the externally supplied template.
The relative path and the formatted date enter as parameters. -/
def generateHTMLForFile (template : String) (result : DocumentationResult)
    (relativePath today : String) : String :=
  let functionsHTML := String.join (result.documentation.functions.map generateFunctionHTML)
  let classesHTML := String.join (result.documentation.classes.map generateClassHTML)
  let exportsHTML := String.join (result.documentation.exports.map generateExportHTML)
  let tocHTML := generateTableOfContents result.documentation
  applyHTMLTemplate template
    (jsOr result.documentation.title (jsBasename result.file))
    relativePath
    result.parsedCode.language
    (jsOr result.documentation.description "No description available")
    tocHTML functionsHTML classesHTML exportsHTML
    (jsOr result.documentation.usage "")
    (jsOr result.documentation.notes "")
    today

/-! ## Babel location mapping (src/core/parsers/javascript.ts)

The AST-based extractor copies `node.loc?.start.line || 0` and
`node.loc?.end.line || 0` into the symbol; the location object itself comes
from the external parser library. -/

structure BabelLoc where
  startLine : Nat
  endLine : Nat
deriving Repr, DecidableEq

/-- Model of the JavaScript `n || 0` on a line number. -/
def jsOrZero (n : Nat) : Nat := if n = 0 then 0 else n

/-- The `(startLine, endLine)` pair stored for a symbol whose node carries
the given optional location. -/
def jsSymbolLines (loc : Option BabelLoc) : Nat × Nat :=
  match loc with
  | some l => (jsOrZero l.startLine, jsOrZero l.endLine)
  | none => (0, 0)

/-! ## Specification reading of the grammar-C block scan

For the block-extent claim the specification describes the scan over the
flattened character sequence: increment/decrement a depth counter on the
two brace characters and close the block at the first character that
returns the depth to zero after an opening brace has been seen; `endLine`
is the line holding that character. -/

/-- Lines from `startIndex` on, flattened to characters each tagged with
its 0-based line index. -/
def flattenIdx : List (List Char) → Nat → List (Nat × Char)
  | [], _ => []
  | l :: rest, i => l.map (fun c => (i, c)) ++ flattenIdx rest (i + 1)

/-- The character-by-character depth scan of the specification text. -/
def specCharScan : List (Nat × Char) → Int → Bool → Option Nat
  | [], _, _ => none
  | (ln, c) :: rest, depth, opened =>
    if c = openBrace then specCharScan rest (depth + 1) true
    else if c = closeBrace then
      if opened ∧ depth - 1 = 0 then some ln else specCharScan rest (depth - 1) opened
    else specCharScan rest depth opened

/-- Block end according to the specification: one past the line of the
closing brace that first returns the depth to zero (so that it can be used
as a 1-based inclusive `endLine`), with the same end-of-input fallback as
the code. -/
def specGoBlockEnd (lines : List (List Char)) (startIndex : Nat) : Nat :=
  match specCharScan (flattenIdx (lines.drop startIndex) startIndex) 0 false with
  | some ln => ln + 1
  | none => lines.length

/-! ## General lemmas about the string primitives -/

theorem getD_drop (l : List α) (n k : Nat) (d : α) :
    (l.drop n).getD k d = l.getD (n + k) d := by
  induction n generalizing l with
  | zero => simp
  | succ n ih =>
    cases l with
    | nil => simp
    | cons a t =>
      have h2 : n + 1 + k = (n + k) + 1 := by omega
      rw [List.drop_succ_cons, h2, ih t, List.getD_cons_succ]

theorem takeWhile_all {p : Char → Bool} {l : List Char} (h : ∀ c ∈ l, p c = true) :
    l.takeWhile p = l := by
  induction l with
  | nil => rfl
  | cons c t ih =>
    simp only [List.takeWhile_cons, h c (by simp)]
    simpa using ih fun x hx => h x (by simp [hx])

theorem dropWhile_all_false {p : Char → Bool} {l : List Char}
    (h : ∀ c ∈ l, p c = false) : l.dropWhile p = l := by
  cases l with
  | nil => rfl
  | cons c t => simp [List.dropWhile_cons, h c (by simp)]

theorem takeWhile_append_stop {p : Char → Bool} {m : List Char} {c : Char} {r : List Char}
    (hm : ∀ x ∈ m, p x = true) (hc : p c = false) :
    (m ++ c :: r).takeWhile p = m := by
  induction m with
  | nil => simp [List.takeWhile_cons, hc]
  | cons a t ih =>
    simp only [List.cons_append, List.takeWhile_cons, hm a (by simp)]
    simpa using ih fun x hx => hm x (by simp [hx])

theorem dropWhile_append_stop {p : Char → Bool} {m : List Char} {c : Char} {r : List Char}
    (hm : ∀ x ∈ m, p x = true) (hc : p c = false) :
    (m ++ c :: r).dropWhile p = c :: r := by
  induction m with
  | nil => simp [List.dropWhile_cons, hc]
  | cons a t ih =>
    simp only [List.cons_append, List.dropWhile_cons, hm a (by simp)]
    simpa using ih fun x hx => hm x (by simp [hx])

theorem trimChars_of_no_ws {l : List Char} (h : ∀ c ∈ l, isJsWs c = false) :
    trimChars l = l := by
  unfold trimChars
  rw [dropWhile_all_false h, dropWhile_all_false (by simpa using fun c hc => h c hc)]
  simp

theorem trimChars_of_ends {x y : Char} (mid : List Char)
    (hx : isJsWs x = false) (hy : isJsWs y = false) :
    trimChars (x :: (mid ++ [y])) = x :: (mid ++ [y]) := by
  have h1 : (x :: (mid ++ [y])).dropWhile isJsWs = x :: (mid ++ [y]) := by
    simp [List.dropWhile_cons, hx]
  have hrev : (x :: (mid ++ [y])).reverse = y :: (mid.reverse ++ [x]) := by simp
  have h2 : (y :: (mid.reverse ++ [x])).dropWhile isJsWs = y :: (mid.reverse ++ [x]) := by
    simp [List.dropWhile_cons, hy]
  unfold trimChars
  rw [h1, hrev, h2, ← hrev, List.reverse_reverse]

theorem splitOnChar_no_sep {sep : Char} {cs : List Char} (h : ∀ c ∈ cs, c ≠ sep) :
    splitOnChar sep cs = [cs] := by
  induction cs with
  | nil => rfl
  | cons c t ih =>
    have hrec := ih fun x hx => h x (by simp [hx])
    simp [splitOnChar, hrec, h c (by simp)]

theorem isPrefixOf_append_self (p r : List Char) : p.isPrefixOf (p ++ r) = true := by
  induction p with
  | nil => simp [List.isPrefixOf]
  | cons a t ih => simp [List.isPrefixOf, ih]

theorem lit_append (p r : List Char) : lit p (p ++ r) = some r := by
  simp [lit, isPrefixOf_append_self, List.drop_left]

theorem replaceFirstChars_self (pat rep : List Char) :
    replaceFirstChars pat rep pat = rep := by
  cases pat with
  | nil => simp [replaceFirstChars, List.isPrefixOf]
  | cons c t =>
    have h := isPrefixOf_append_self (c :: t) []
    simp only [List.append_nil] at h
    simp [replaceFirstChars, h]

theorem replaceFirstChars_of_not_hasSub {s pat : List Char} (rep : List Char)
    (h : hasSub s pat = false) : replaceFirstChars pat rep s = s := by
  induction s with
  | nil =>
    simp only [hasSub, Bool.or_eq_false_iff] at h ⊢
    simp [replaceFirstChars, h]
  | cons c t ih =>
    simp only [hasSub, Bool.or_eq_false_iff] at h
    simp [replaceFirstChars, h.1, ih h.2]

theorem replaceFirst_self (pat rep : String) : replaceFirst pat pat rep = rep := by
  simp [replaceFirst, replaceFirstChars_self]

theorem replaceFirst_no_occurrence {s pat : String} (rep : String)
    (h : hasSub s.data pat.data = false) : replaceFirst s pat rep = s := by
  simp [replaceFirst, replaceFirstChars_of_not_hasSub _ h]

/-! ## Claim C3: grammar-B block extent by indentation -/

theorem findFunctionEndLoop_finds {ind : Nat} {l : List (List Char)} {i s : Nat}
    (his : i ≤ s) (hlen : s - i < l.length)
    (hskip : ∀ j, i ≤ j → j < s → trimChars (l.getD (j - i) []) = [] ∨ ind < getIndentation (l.getD (j - i) []))
    (hstop₁ : trimChars (l.getD (s - i) []) ≠ [])
    (hstop₂ : getIndentation (l.getD (s - i) []) ≤ ind) :
    findFunctionEndLoop ind l i = some s := by
  induction l generalizing i with
  | nil => simp at hlen
  | cons line rest ih =>
    rcases Nat.eq_or_lt_of_le his with heq | hlt
    · subst heq
      simp only [Nat.sub_self, List.getD_cons_zero] at hstop₁ hstop₂
      simp [findFunctionEndLoop, hstop₁, hstop₂]
    · have hline := hskip i (Nat.le_refl i) hlt
      simp only [Nat.sub_self, List.getD_cons_zero] at hline
      have hrec : findFunctionEndLoop ind rest (i + 1) = some s := by
        apply ih
        · omega
        · simp only [List.length_cons] at hlen; omega
        · intro j hj1 hj2
          have := hskip j (by omega) hj2
          have hdx : j - i = (j - (i + 1)) + 1 := by omega
          rw [hdx] at this
          simpa using this
        · have hdx : s - i = (s - (i + 1)) + 1 := by omega
          rw [hdx] at hstop₁
          simpa using hstop₁
        · have hdx : s - i = (s - (i + 1)) + 1 := by omega
          rw [hdx] at hstop₂
          simpa using hstop₂
      rcases hline with hblank | hdeep
      · simp [findFunctionEndLoop, hblank, hrec]
      · by_cases hbl : trimChars line = []
        · simp [findFunctionEndLoop, hbl, hrec]
        · have : ¬ getIndentation line ≤ ind := by omega
          simp [findFunctionEndLoop, hbl, this, hrec]

/-- Claim C3: for a grammar-B (indentation-based) source whose function
header sits at indentation depth 0 at line index `h`, with every line
strictly between the header and a sibling at index `s` either blank or more
deeply indented, and the sibling non-blank at depth 0, the block scan of
`findFunctionEnd` — the value stored as the extracted symbol's `endLine` by
`parsePythonFunctions` — returns exactly `s`, the 1-based number of the
line immediately before the sibling (the sibling itself being 1-based line
`s + 1`). -/
theorem findFunctionEnd_stops_at_sibling (lines : List (List Char)) (h s : Nat)
    (hhs : h < s) (hs : s < lines.length)
    (hheader : getIndentation (lines.getD h []) = 0)
    (hbody : ∀ j, h < j → j < s →
      trimChars (lines.getD j []) = [] ∨ 0 < getIndentation (lines.getD j []))
    (hsib₁ : trimChars (lines.getD s []) ≠ [])
    (hsib₂ : getIndentation (lines.getD s []) = 0) :
    findFunctionEnd lines h = s := by
  unfold findFunctionEnd
  rw [hheader]
  have hloop : findFunctionEndLoop 0 (lines.drop (h + 1)) (h + 1) = some s := by
    apply findFunctionEndLoop_finds (i := h + 1) (s := s)
    · omega
    · rw [List.length_drop]; omega
    · intro j hj1 hj2
      rw [getD_drop]
      have hidx : h + 1 + (j - (h + 1)) = j := by omega
      rw [hidx]
      exact hbody j (by omega) hj2
    · rw [getD_drop]
      have hidx : h + 1 + (s - (h + 1)) = s := by omega
      rw [hidx]; exact hsib₁
    · rw [getD_drop]
      have hidx : h + 1 + (s - (h + 1)) = s := by omega
      rw [hidx]; omega
  rw [hloop]
  rfl

/-- Witness for C3: the concrete scenario from the specification — a header
at depth 0, a body line at depth 1, and a sibling declaration at depth 0 on
1-based line 3; the extracted block ends on line 2, immediately before the
sibling. -/
theorem findFunctionEnd_stops_at_sibling_witness :
    findFunctionEnd ["def f():".toList, "    return 1".toList, "def g():".toList] 0 = 2 := by
  apply findFunctionEnd_stops_at_sibling
  · decide
  · decide
  · decide
  · intro j h1 h2
    interval_cases j
    · right; decide
  · decide
  · decide

/-! ## Claim C4: grammar-C block extent by brace depth -/

theorem specCharScan_append (cs : List Char) (ln : Nat) (rest : List (Nat × Char))
    (bc : Int) (fo : Bool) :
    specCharScan (cs.map (fun c => (ln, c)) ++ rest) bc fo =
      match goScanLine cs bc fo with
      | none => some ln
      | some (bc2, fo2) => specCharScan rest bc2 fo2 := by
  induction cs generalizing bc fo with
  | nil => simp [goScanLine]
  | cons c t ih =>
    by_cases hopen : c = openBrace
    · simp [specCharScan, goScanLine, hopen, ih]
    · by_cases hclose : c = closeBrace
      · subst hclose
        by_cases hz : fo = true ∧ bc - 1 = 0
        · simp [specCharScan, goScanLine, hopen, hz]
        · simp [specCharScan, goScanLine, hopen, hz, ih]
      · simp [specCharScan, goScanLine, hopen, hclose, ih]

theorem findGoFunctionEndLoop_eq_spec (ls : List (List Char)) (i : Nat) (bc : Int) (fo : Bool) :
    findGoFunctionEndLoop ls i bc fo = (specCharScan (flattenIdx ls i) bc fo).map (· + 1) := by
  induction ls generalizing i bc fo with
  | nil => simp [findGoFunctionEndLoop, flattenIdx, specCharScan]
  | cons l rest ih =>
    simp only [findGoFunctionEndLoop, flattenIdx]
    rw [specCharScan_append]
    cases hscan : goScanLine l bc fo with
    | none => simp
    | some st => cases st with
      | mk bc2 fo2 => simpa using ih (i + 1) bc2 fo2

/-- Claim C4: the brace-depth scan of `findGoFunctionEnd` — the value the
grammar-C extractor stores as `endLine` — coincides, for every input and
start index, with the specification's character-by-character reading: the
block closes at the closing brace that first returns the depth counter to
zero after an opening brace has been seen (never at an intermediate closing
brace, which leaves the counter positive), and `endLine` is the 1-based
number of the line holding that brace. -/
theorem findGoFunctionEnd_eq_spec (lines : List (List Char)) (startIndex : Nat) :
    findGoFunctionEnd lines startIndex = specGoBlockEnd lines startIndex := by
  unfold findGoFunctionEnd specGoBlockEnd
  rw [findGoFunctionEndLoop_eq_spec]
  cases specCharScan (flattenIdx (lines.drop startIndex) startIndex) 0 false with
  | none => rfl
  | some ln => rfl

/-! ## Claim C8: line-span invariant of extracted symbols -/

theorem findFunctionEndLoop_ge {ind : Nat} {l : List (List Char)} {i j : Nat}
    (h : findFunctionEndLoop ind l i = some j) : i ≤ j := by
  induction l generalizing i with
  | nil => simp [findFunctionEndLoop] at h
  | cons line rest ih =>
    simp only [findFunctionEndLoop] at h
    by_cases hbl : trimChars line = []
    · rw [if_pos hbl] at h
      exact Nat.le_of_succ_le (ih h)
    · rw [if_neg hbl] at h
      by_cases hind : getIndentation line ≤ ind
      · rw [if_pos hind] at h
        simp only [Option.some.injEq] at h
        omega
      · rw [if_neg hind] at h
        exact Nat.le_of_succ_le (ih h)

theorem findFunctionEnd_ge {lines : List (List Char)} {i : Nat} (h : i < lines.length) :
    i + 1 ≤ findFunctionEnd lines i := by
  unfold findFunctionEnd
  cases hloop : findFunctionEndLoop (getIndentation (lines.getD i []))
      (lines.drop (i + 1)) (i + 1) with
  | none => simp only [Option.getD_none]; omega
  | some j =>
    have hj := findFunctionEndLoop_ge hloop
    simp only [Option.getD_some]
    omega

theorem findGoFunctionEndLoop_ge {ls : List (List Char)} {i j : Nat} {bc : Int} {fo : Bool}
    (h : findGoFunctionEndLoop ls i bc fo = some j) : i + 1 ≤ j := by
  induction ls generalizing i bc fo with
  | nil => simp [findGoFunctionEndLoop] at h
  | cons l rest ih =>
    simp only [findGoFunctionEndLoop] at h
    cases hscan : goScanLine l bc fo with
    | none => rw [hscan] at h; simp at h; omega
    | some st =>
      rw [hscan] at h
      cases st with
      | mk bc2 fo2 =>
        simp only at h
        have := ih h
        omega

theorem findGoFunctionEnd_ge {lines : List (List Char)} {i : Nat} (h : i < lines.length) :
    i + 1 ≤ findGoFunctionEnd lines i := by
  unfold findGoFunctionEnd
  cases hloop : findGoFunctionEndLoop (lines.drop i) i 0 false with
  | none => simp only [Option.getD_none]; omega
  | some j =>
    have hj := findGoFunctionEndLoop_ge hloop
    simp only [Option.getD_some]
    omega

theorem parsePythonFunctionsLines_span {lines : List (List Char)} {f : FunctionInfo}
    (h : f ∈ parsePythonFunctionsLines lines) : f.startLine ≤ f.endLine := by
  unfold parsePythonFunctionsLines at h
  obtain ⟨i, hi, hf⟩ := List.mem_filterMap.mp h
  have hilt : i < lines.length := List.mem_range.mp hi
  cases hmatch : matchPythonFuncDef (trimChars (lines.getD i [])) with
  | none => rw [hmatch] at hf; simp at hf
  | some q =>
    obtain ⟨isAsync, name, params, retOpt⟩ := q
    rw [hmatch] at hf
    simp only [Option.some.injEq] at hf
    subst hf
    simpa using findFunctionEnd_ge hilt

theorem parsePythonClasses_span {content : String} {c : ClassInfo}
    (h : c ∈ parsePythonClasses content) :
    c.startLine ≤ c.endLine ∧ ∀ m ∈ c.methods, m.startLine ≤ m.endLine := by
  unfold parsePythonClasses at h
  obtain ⟨i, hi, hc⟩ := List.mem_filterMap.mp h
  have hilt : i < (splitOnChar '\n' content.data).length := List.mem_range.mp hi
  cases hmatch : matchPythonClassDef (trimChars ((splitOnChar '\n' content.data).getD i [])) with
  | none => rw [hmatch] at hc; simp at hc
  | some q =>
    obtain ⟨className, bases?⟩ := q
    rw [hmatch] at hc
    simp only [Option.some.injEq] at hc
    subst hc
    constructor
    · simpa [findClassEnd] using findFunctionEnd_ge hilt
    · intro m hm
      simp only [parsePythonMethods, List.mem_map] at hm
      obtain ⟨m₀, hm₀, hshift⟩ := hm
      have hspan := parsePythonFunctionsLines_span hm₀
      subst hshift
      simpa using Nat.add_le_add_right hspan (i + 1)

theorem parseGoFunctions_span {content : String} {f : FunctionInfo}
    (h : f ∈ parseGoFunctions content) : f.startLine ≤ f.endLine := by
  unfold parseGoFunctions parseGoFunctionsLines at h
  obtain ⟨i, hi, hf⟩ := List.mem_filterMap.mp h
  have hilt : i < (splitOnChar '\n' content.data).length := List.mem_range.mp hi
  cases hmatch : matchGoFunc (trimChars ((splitOnChar '\n' content.data).getD i [])) with
  | none => rw [hmatch] at hf; simp at hf
  | some q =>
    obtain ⟨name, params, rets⟩ := q
    rw [hmatch] at hf
    simp only [Option.some.injEq] at hf
    subst hf
    simpa using findGoFunctionEnd_ge hilt

theorem findGoStructMethods_span {content structName : String} {m : FunctionInfo}
    (h : m ∈ findGoStructMethods content structName) : m.startLine ≤ m.endLine := by
  unfold findGoStructMethods at h
  obtain ⟨i, hi, hm⟩ := List.mem_filterMap.mp h
  have hilt : i < (splitOnChar '\n' content.data).length := List.mem_range.mp hi
  cases hmatch : matchGoMethod structName.data
      (trimChars ((splitOnChar '\n' content.data).getD i [])) with
  | none => rw [hmatch] at hm; simp at hm
  | some q =>
    obtain ⟨name, params, rets⟩ := q
    rw [hmatch] at hm
    simp only [Option.some.injEq] at hm
    subst hm
    simpa using findGoFunctionEnd_ge hilt

theorem parseGoStructs_span {content : String} {c : ClassInfo}
    (h : c ∈ parseGoStructs content) :
    c.startLine ≤ c.endLine ∧ ∀ m ∈ c.methods, m.startLine ≤ m.endLine := by
  unfold parseGoStructs at h
  obtain ⟨i, hi, hc⟩ := List.mem_filterMap.mp h
  have hilt : i < (splitOnChar '\n' content.data).length := List.mem_range.mp hi
  cases hmatch : matchGoStruct (trimChars ((splitOnChar '\n' content.data).getD i [])) with
  | none => rw [hmatch] at hc; simp at hc
  | some structName =>
    rw [hmatch] at hc
    simp only [Option.some.injEq] at hc
    subst hc
    refine ⟨by simpa [findGoStructEnd] using findGoFunctionEnd_ge hilt, ?_⟩
    intro m hm
    exact findGoStructMethods_span hm

/-- Claim C8: every symbol produced by the extractors satisfies the line
span invariant — for the heuristic extractors (grammar-B functions,
classes and their methods; grammar-C functions, structs and their methods)
`endLine ≥ startLine` always holds, and for the tree-walk extractor the
stored pair is `(0, 0)` when the node has no location and inherits
`endLine ≥ startLine` from the external parser's location object
otherwise. -/
theorem symbol_line_span_invariant :
    (∀ (content : String) (f : FunctionInfo),
        f ∈ parsePythonFunctions content → f.startLine ≤ f.endLine) ∧
    (∀ (content : String) (c : ClassInfo), c ∈ parsePythonClasses content →
        c.startLine ≤ c.endLine ∧ ∀ m ∈ c.methods, m.startLine ≤ m.endLine) ∧
    (∀ (content : String) (f : FunctionInfo),
        f ∈ parseGoFunctions content → f.startLine ≤ f.endLine) ∧
    (∀ (content : String) (c : ClassInfo), c ∈ parseGoStructs content →
        c.startLine ≤ c.endLine ∧ ∀ m ∈ c.methods, m.startLine ≤ m.endLine) ∧
    (∀ loc : Option BabelLoc, (∀ l, loc = some l → l.startLine ≤ l.endLine) →
        (jsSymbolLines loc).1 ≤ (jsSymbolLines loc).2 ∨
          ((jsSymbolLines loc).1 = 0 ∧ (jsSymbolLines loc).2 = 0)) := by
  refine ⟨?_, ?_, ?_, ?_, ?_⟩
  · intro content f h
    exact parsePythonFunctionsLines_span h
  · intro content c h
    exact parsePythonClasses_span h
  · intro content f h
    exact parseGoFunctions_span h
  · intro content c h
    exact parseGoStructs_span h
  · intro loc h
    cases loc with
    | none => right; simp [jsSymbolLines]
    | some l =>
      left
      have := h l rfl
      simp only [jsSymbolLines, jsOrZero]
      split <;> split <;> omega

/-- Witness for C8, applying the invariant to a concrete grammar-B
function, a concrete grammar-C function, and a concrete location object. -/
theorem symbol_line_span_invariant_witness :
    (∀ f ∈ parsePythonFunctions "def f():\n    return 1", f.startLine ≤ f.endLine) ∧
    ((jsSymbolLines (some ⟨2, 5⟩)).1 ≤ (jsSymbolLines (some ⟨2, 5⟩)).2 ∨
      ((jsSymbolLines (some ⟨2, 5⟩)).1 = 0 ∧ (jsSymbolLines (some ⟨2, 5⟩)).2 = 0)) :=
  ⟨fun f hf => symbol_line_span_invariant.1 "def f():\n    return 1" f hf,
   symbol_line_span_invariant.2.2.2.2 (some ⟨2, 5⟩) (fun l hl => by cases hl; decide)⟩

/-! ## Claim C5: grammar-C export derivation -/

/-- A grammar-C function whose name begins with an underscore: unexported
by the grammar's convention, yet unchanged by `toUpperCase`. -/
def underscoreFunc : FunctionInfo :=
  { name := "_helper", parameters := [], returnType := "void",
    isAsync := false, isGenerator := false, startLine := 3, endLine := 5 }

/-- Counterexample to C5 as stated: the extractor's test is
`name[0] === name[0].toUpperCase()`, so the function `_helper`, whose first
character is not an upper-case letter, still yields an `ExportEdge`; the
"only if" direction of the claim fails. -/
theorem parseGoExports_underscore_counterexample :
    parseGoExports "" [underscoreFunc] [] =
      [{ name := "_helper", type := "function", startLine := 3 }] ∧
    ("_helper".data.headD ' ').isUpper = false := by
  constructor
  · rfl
  · decide

/-- Claim C5 (amended): for every function symbol and every struct symbol
of a grammar-C module, an `ExportEdge` of the matching kind (`function` or
`struct`) carrying its name and start line is produced if and only if the
name's first character is unchanged by upper-casing
(`name[0] === name[0].toUpperCase()`) — true for upper-case letters and
for the underscore, false for lower-case letters; in particular the
upper-case function `Foo` yields exactly one such edge. -/
theorem parseGoExports_membership (content : String)
    (functions : List FunctionInfo) (structs : List ClassInfo) :
    (∀ f ∈ functions,
      (({ name := f.name, type := "function", startLine := f.startLine } : ExportInfo) ∈
          parseGoExports content functions structs) ↔ jsFirstCharUpperEq f.name = true) ∧
    (∀ s ∈ structs,
      (({ name := s.name, type := "struct", startLine := s.startLine } : ExportInfo) ∈
          parseGoExports content functions structs) ↔ jsFirstCharUpperEq s.name = true) := by
  constructor
  · intro f hf
    constructor
    · intro hmem
      unfold parseGoExports at hmem
      rcases List.mem_append.mp hmem with hfun | hstr
      · obtain ⟨g, hg, hge⟩ := List.mem_map.mp hfun
        obtain ⟨hgmem, hgpred⟩ := List.mem_filter.mp hg
        have : g.name = f.name := by
          have := congrArg ExportInfo.name hge
          simpa using this
        rwa [this] at hgpred
      · obtain ⟨g, hg, hge⟩ := List.mem_map.mp hstr
        have : ("function" : String) = "struct" := by
          have := congrArg ExportInfo.type hge
          simpa using this.symm
        exact absurd this (by decide)
    · intro hpred
      unfold parseGoExports
      refine List.mem_append.mpr (Or.inl ?_)
      exact List.mem_map.mpr ⟨f, List.mem_filter.mpr ⟨hf, hpred⟩, rfl⟩
  · intro st hst
    constructor
    · intro hmem
      unfold parseGoExports at hmem
      rcases List.mem_append.mp hmem with hfun | hstr
      · obtain ⟨g, hg, hge⟩ := List.mem_map.mp hfun
        have : ("struct" : String) = "function" := by
          have := congrArg ExportInfo.type hge
          simpa using this.symm
        exact absurd this (by decide)
      · obtain ⟨g, hg, hge⟩ := List.mem_map.mp hstr
        obtain ⟨hgmem, hgpred⟩ := List.mem_filter.mp hg
        have : g.name = st.name := by
          have := congrArg ExportInfo.name hge
          simpa using this
        rwa [this] at hgpred
    · intro hpred
      unfold parseGoExports
      refine List.mem_append.mpr (Or.inr ?_)
      exact List.mem_map.mpr ⟨st, List.mem_filter.mpr ⟨hst, hpred⟩, rfl⟩

/-- The specification's grammar-C scenario source
`func Foo(a int) string { return "" }`. -/
def goScenarioSource : String := "func Foo(a int) string \x7b return \"\" \x7d"

/-- The function symbol the grammar-C extractor produces for the scenario
source. -/
def goFooSymbol : FunctionInfo :=
  { name := "Foo", parameters := [{ name := "a", type := "int" }], returnType := "string",
    isAsync := false, isGenerator := false, startLine := 1, endLine := 1 }

/-- A concrete exported struct symbol for exercising the struct branch. -/
def goUserStruct : ClassInfo :=
  { name := "User", methods := [], properties := [], startLine := 1, endLine := 3 }

/-- Witness for the amended C5: at the specification's scenario `Foo` is
extracted and the membership theorem yields its `ExportEdge` of kind
`function` (the only edge when no structs are present), and at a concrete
struct `User` the struct half yields the `ExportEdge` of kind `struct`. -/
theorem parseGoExports_membership_witness :
    goFooSymbol ∈ parseGoFunctions goScenarioSource ∧
    (({ name := "Foo", type := "function", startLine := 1 } : ExportInfo) ∈
        parseGoExports goScenarioSource (parseGoFunctions goScenarioSource) [goUserStruct]) ∧
    (({ name := "User", type := "struct", startLine := 1 } : ExportInfo) ∈
        parseGoExports goScenarioSource (parseGoFunctions goScenarioSource) [goUserStruct]) ∧
    (parseGoExports goScenarioSource (parseGoFunctions goScenarioSource) []).length = 1 :=
  ⟨by decide,
   ((parseGoExports_membership goScenarioSource (parseGoFunctions goScenarioSource)
      [goUserStruct]).1 goFooSymbol (by decide)).mpr (by decide),
   ((parseGoExports_membership goScenarioSource (parseGoFunctions goScenarioSource)
      [goUserStruct]).2 goUserStruct (by decide)).mpr (by decide),
   by decide⟩

/-! ## Claim C1: handling of prose-service failure in the batch loop -/

/-- A parse result with documentable code (one function). -/
def proseFailureParsed : ParsedCodeFile :=
  { filePath := "src/a.py", language := "python", content := "def f():\n    return 1"
    functions := [{ name := "f", parameters := [], returnType := "Any",
                    isAsync := false, isGenerator := false, startLine := 1, endLine := 2 }]
    classes := [], imports := [], exports := [] }

/-- A batch entry whose prose-service call fails (the error being the
rethrown wrapper produced by `OpenAIClient.generateDocumentation`). -/
def proseFailureJob : FileJob :=
  { file := "src/a.py"
    parseOutcome := Except.ok proseFailureParsed
    proseOutcome := openAIGenerateDocumentation (Except.error "Empty response from OpenAI") }

/-- Counterexample to C1 as stated: a batch containing one file that parses
successfully with documentable code but whose prose-generation call fails
produces an empty `documentationResults` — the file is dropped from the
batch's output artifacts entirely, not rendered with placeholder prose. -/
theorem processBatch_drops_prose_failure :
    processBatch [proseFailureJob] = [] ∧
    proseFailureJob.parseOutcome = Except.ok proseFailureParsed ∧
    proseFailureParsed.functions.length = 1 ∧
    proseFailureJob.proseOutcome =
      Except.error "Failed to generate documentation: Empty response from OpenAI" :=
  ⟨rfl, rfl, rfl, rfl⟩

/-- Claim C1 (amended): when the external prose-generation call for one
file of a batch fails, that file is skipped — it contributes no entry to
`documentationResults` and hence no output artifact — while every other
file of the batch is processed exactly as if the failed file were absent
(the failure is non-fatal to the batch). -/
theorem processBatch_skips_failed_prose (pre post : List FileJob) (j : FileJob)
    (e : String) (h : j.proseOutcome = Except.error e) :
    processBatch (pre ++ j :: post) = processBatch pre ++ processBatch post := by
  unfold processBatch
  rw [List.filterMap_append]
  congr 1
  cases hp : j.parseOutcome with
  | error msg => simp [List.filterMap_cons, hp]
  | ok parsedCode =>
    by_cases hz : parsedCode.functions = [] ∧ parsedCode.classes = []
    · simp [List.filterMap_cons, hp, hz]
    · simp [List.filterMap_cons, hp, hz, h]

/-- A batch entry that succeeds end to end. -/
def healthyJob : FileJob :=
  { file := "src/b.py"
    parseOutcome := Except.ok { proseFailureParsed with filePath := "src/b.py" }
    proseOutcome := Except.ok { title := some "B", description := some "doc" } }

/-- Witness for the amended C1: in the concrete batch `[healthyJob,
proseFailureJob]` the failing file vanishes while the healthy sibling is
still processed. -/
theorem processBatch_skips_failed_prose_witness :
    processBatch ([healthyJob] ++ proseFailureJob :: []) =
      processBatch [healthyJob] ++ processBatch [] :=
  processBatch_skips_failed_prose [healthyJob] [] proseFailureJob
    "Failed to generate documentation: Empty response from OpenAI" rfl

/-! ## Claim C9: determinism of extraction -/

/-- Claim C9: extraction is deterministic — the grammar-B and grammar-C
extractors are pure functions of the source text (their embeddings take no
clock, file-system or other run-dependent input, mirroring the sources,
which read nothing but `content` and the base record), so running either
twice on the same unchanged text yields identical `ParsedCodeFile` values. -/
theorem extraction_deterministic (content : String) (base : ParsedCodeFile) :
    parsePython content base = parsePython content base ∧
    parseGo content base = parseGo content base :=
  ⟨rfl, rfl⟩

/-- Witness for C9 at a concrete source text. -/
theorem extraction_deterministic_witness :
    parsePython "def f():" ⟨"a.py", "python", "def f():", [], [], [], []⟩ =
      parsePython "def f():" ⟨"a.py", "python", "def f():", [], [], [], []⟩ :=
  (extraction_deterministic "def f():" ⟨"a.py", "python", "def f():", [], [], [], []⟩).1

/-! ## Claim C6: the grammar-B parameter scenario -/

/-- Claim C6: the grammar-B input `def f(x: int = 1) -> str:` yields exactly
one function symbol named `f` with one parameter `x` of declared type `int`
and default literal `1`, and return type `str`. -/
theorem parsePythonFunctions_scenario :
    parsePythonFunctions "def f(x: int = 1) -> str:" =
      [{ name := "f"
         parameters := [{ name := "x", type := "int", defaultValue := some "1" }]
         returnType := "str", isAsync := false, isGenerator := false
         startLine := 1, endLine := 1 }] := by
  decide

/-! ## Claim C7: the combined serialized-object artifact -/

theorem jsObjectGet_set_self {α : Type} (m : List (String × α)) (k : String) (v : α) :
    jsObjectGet (jsObjectSet m k v) k = some v := by
  induction m with
  | nil => simp [jsObjectSet, jsObjectGet]
  | cons p rest ih =>
    obtain ⟨k', v'⟩ := p
    by_cases hk : k' = k
    · simp [jsObjectSet, jsObjectGet, hk]
    · simp [jsObjectSet, jsObjectGet, hk, ih]

theorem jsObjectSet_keys {α : Type} (m : List (String × α)) (k : String) (v : α) :
    (jsObjectSet m k v).map Prod.fst =
      if k ∈ m.map Prod.fst then m.map Prod.fst else m.map Prod.fst ++ [k] := by
  induction m with
  | nil => simp [jsObjectSet]
  | cons p rest ih =>
    obtain ⟨k', v'⟩ := p
    by_cases hk : k' = k
    · simp [jsObjectSet, hk]
    · by_cases hmem : k ∈ rest.map Prod.fst
      · simp [jsObjectSet, hk, hmem, ih, Ne.symm hk]
      · simp [jsObjectSet, hk, hmem, ih, Ne.symm hk]

theorem jsObjectSet_keys_nodup {α : Type} {m : List (String × α)} (k : String) (v : α)
    (h : (m.map Prod.fst).Nodup) : ((jsObjectSet m k v).map Prod.fst).Nodup := by
  rw [jsObjectSet_keys]
  by_cases hmem : k ∈ m.map Prod.fst
  · simpa [hmem] using h
  · simp only [hmem, if_false]
    simp [List.nodup_append, h, hmem]

theorem docMapFold_keys_nodup {α : Type} (f : DocumentationResult → α)
    (key : DocumentationResult → String) (rs : List DocumentationResult)
    (acc : List (String × α)) (h : (acc.map Prod.fst).Nodup) :
    (((rs.foldl (fun m r => jsObjectSet m (key r) (f r)) acc)).map Prod.fst).Nodup := by
  induction rs generalizing acc with
  | nil => simpa using h
  | cons r rest ih =>
    exact ih _ (jsObjectSet_keys_nodup (key r) (f r) h)

theorem jsSetDedup_fold_nodup (l : List String) (acc : List String) (h : acc.Nodup) :
    (l.foldl (fun acc x => if x ∈ acc then acc else acc ++ [x]) acc).Nodup := by
  induction l generalizing acc with
  | nil => simpa using h
  | cons x rest ih =>
    simp only [List.foldl_cons]
    by_cases hmem : x ∈ acc
    · rw [if_pos hmem]
      exact ih acc h
    · rw [if_neg hmem]
      refine ih (acc ++ [x]) ?_
      simp [List.nodup_append, h, hmem]

theorem jsSetDedup_fold_mem (l : List String) (acc : List String) (y : String) :
    y ∈ l.foldl (fun acc x => if x ∈ acc then acc else acc ++ [x]) acc ↔
      y ∈ acc ∨ y ∈ l := by
  induction l generalizing acc with
  | nil => simp
  | cons x rest ih =>
    simp only [List.foldl_cons]
    by_cases hmem : x ∈ acc
    · rw [if_pos hmem, ih]
      simp only [List.mem_cons]
      constructor
      · rintro (h | h)
        · exact Or.inl h
        · exact Or.inr (Or.inr h)
      · rintro (h | rfl | h)
        · exact Or.inl h
        · exact Or.inl hmem
        · exact Or.inr h
    · rw [if_neg hmem, ih]
      simp only [List.mem_append, List.mem_singleton, List.mem_cons]
      tauto

theorem jsSetDedup_nodup (l : List String) : (jsSetDedup l).Nodup :=
  jsSetDedup_fold_nodup l [] List.nodup_nil

theorem jsSetDedup_mem (l : List String) (y : String) : y ∈ jsSetDedup l ↔ y ∈ l := by
  unfold jsSetDedup
  rw [jsSetDedup_fold_mem]
  simp

theorem foldl_add_map_sum {α : Type} (l : List α) (f : α → Nat) (n : Nat) :
    l.foldl (fun s a => s + f a) n = n + (l.map f).sum := by
  induction l generalizing n with
  | nil => simp
  | cons a rest ih => simp [ih, Nat.add_assoc]

/-- Claim C7: the combined serialized-object artifact keys its
`documentation` block by base file name with the extension stripped; the
key set is de-duplicated (no key occurs twice), and when two input files
share a base name the later entry overwrites the earlier one — looking up
the shared key after appending a result always returns that last result's
entry.  The artifact's `summary` block carries the aggregate symbol count
(shown for `totalFunctions`; `totalClasses` and `totalExports` are built by
the identical fold) and the distinct-language set actually observed, in
first-occurrence order and without duplicates. -/
theorem generateCombinedJSON_combined_properties (results : List DocumentationResult)
    (r : DocumentationResult) (cwd now style : String) :
    jsObjectGet ((generateCombinedJSONData (results ++ [r]) cwd now style).documentation)
        (jsBasenameNoExt r.file) = some (mkCombinedDocEntry cwd r) ∧
    (((generateCombinedJSONData results cwd now style).documentation).map Prod.fst).Nodup ∧
    ((generateCombinedJSONData results cwd now style).summary.languages).Nodup ∧
    (∀ l, l ∈ (generateCombinedJSONData results cwd now style).summary.languages ↔
        l ∈ results.map (fun x => x.parsedCode.language)) ∧
    (generateCombinedJSONData results cwd now style).summary.totalFunctions =
      (results.map (fun x => x.documentation.functions.length)).sum := by
  refine ⟨?_, ?_, ?_, ?_, ?_⟩
  · show jsObjectGet ((results ++ [r]).foldl
        (fun acc x => jsObjectSet acc (jsBasenameNoExt x.file) (mkCombinedDocEntry cwd x)) [])
        (jsBasenameNoExt r.file) = some (mkCombinedDocEntry cwd r)
    rw [List.foldl_append]
    simp only [List.foldl_cons, List.foldl_nil]
    exact jsObjectGet_set_self _ _ _
  · exact docMapFold_keys_nodup (mkCombinedDocEntry cwd) (fun x => jsBasenameNoExt x.file)
      results [] (by simp)
  · exact jsSetDedup_nodup _
  · intro l
    exact jsSetDedup_mem _ l
  · show results.foldl (fun sum x => sum + x.documentation.functions.length) 0 =
        (results.map (fun x => x.documentation.functions.length)).sum
    rw [foldl_add_map_sum]
    simp

/-! ## Claim C2: malformed hypertext template -/

/-- A documentation value with one documented function, for exercising the
hypertext renderer. -/
def htmlSampleDoc : GeneratedDocumentation :=
  { title := some "My Module", description := some "Demo module"
    functions := [{ name := "foo", description := some "does foo"
                    parameters := [{ name := "x", type := "int", description := some "an int" }]
                    returns := { type := "str", description := some "a string" } }] }

/-- The renderer input built from `htmlSampleDoc`. -/
def htmlSampleResult : DocumentationResult :=
  { file := "src/sample.py"
    parsedCode :=
      { filePath := "src/sample.py", language := "python"
        content := "def foo(x):\n    return str(x)"
        functions := [{ name := "foo", parameters := [{ name := "x", type := "Any" }]
                        returnType := "Any", isAsync := false, isGenerator := false
                        startLine := 1, endLine := 2 }]
        classes := [], imports := [], exports := [] }
    documentation := htmlSampleDoc }

/-- Counterexample to C2 as stated: on a template missing the
function-section slot (and every other slot except the title) the
hypertext renderer does not fail — there is no `TemplateError` anywhere in
the code — it returns a rendered page in which the documented function's
section is silently omitted. -/
theorem generateHTMLForFile_missing_slot_counterexample :
    generateHTMLForFile "<h1>\x7b\x7bTITLE\x7d\x7d</h1>" htmlSampleResult
        "src/sample.py" "2026-01-01" = "<h1>My Module</h1>" ∧
    htmlSampleResult.documentation.functions.length = 1 := by
  constructor
  · rfl
  · rfl

/-- The slot markers other than the title slot. -/
def otherSlotMarkers : List String :=
  [filePathSlot, languageSlot, descriptionSlot, tocSlot, functionsSlot, classesSlot,
   exportsSlot, usageSlot, notesSlot, generatedDateSlot]

/-- Claim C2 (amended): an externally supplied hypertext template missing
required slot markers does not make the renderer fail: substitution of an
absent marker is a no-op, so for a template consisting of only the title
slot — the function-section slot among the missing ones — the renderer
succeeds on every documentation value and returns just the substituted
title, silently omitting the function section (the structured-text and
serialized-object renderers are likewise total and unaffected). -/
theorem generateHTMLForFile_total_on_missing_slots (r : DocumentationResult)
    (relativePath today : String)
    (h : ∀ m ∈ otherSlotMarkers,
      hasSub (jsOr r.documentation.title (jsBasename r.file)).data m.data = false) :
    generateHTMLForFile titleSlot r relativePath today =
      jsOr r.documentation.title (jsBasename r.file) := by
  simp only [generateHTMLForFile, applyHTMLTemplate]
  rw [replaceFirst_self,
    replaceFirst_no_occurrence _ (h filePathSlot (by simp [otherSlotMarkers])),
    replaceFirst_no_occurrence _ (h languageSlot (by simp [otherSlotMarkers])),
    replaceFirst_no_occurrence _ (h descriptionSlot (by simp [otherSlotMarkers])),
    replaceFirst_no_occurrence _ (h tocSlot (by simp [otherSlotMarkers])),
    replaceFirst_no_occurrence _ (h functionsSlot (by simp [otherSlotMarkers])),
    replaceFirst_no_occurrence _ (h classesSlot (by simp [otherSlotMarkers])),
    replaceFirst_no_occurrence _ (h exportsSlot (by simp [otherSlotMarkers])),
    replaceFirst_no_occurrence _ (h usageSlot (by simp [otherSlotMarkers])),
    replaceFirst_no_occurrence _ (h notesSlot (by simp [otherSlotMarkers])),
    replaceFirst_no_occurrence _ (h generatedDateSlot (by simp [otherSlotMarkers]))]

/-- Witness for the amended C2 at the concrete sample documentation. -/
theorem generateHTMLForFile_total_on_missing_slots_witness :
    generateHTMLForFile titleSlot htmlSampleResult "src/sample.py" "2026-01-02" =
      "My Module" :=
  (generateHTMLForFile_total_on_missing_slots htmlSampleResult "src/sample.py" "2026-01-02"
    (by decide)).trans (by decide)

/-! ## Claim C10: the discarded alias of plain imports -/

/-- Characters allowed in the module / alias tokens of a plain
`import module as alias` line: the regex class `[^\s#]`, further excluding
the comma so that the module list does not split. -/
def isPlainImportChar (c : Char) : Bool := !isJsWs c && c ≠ '#' && c ≠ ','

/-- Characters allowed in the tokens of a `from module import name as
alias` line: non-whitespace, excluding the comma separating list items. -/
def isFromItemChar (c : Char) : Bool := !isJsWs c && c ≠ ','

theorem isPrefixOf_cons_of_ne {a b : Char} {as bs : List Char} (h : a ≠ b) :
    (a :: as).isPrefixOf (b :: bs) = false := by
  simp [List.isPrefixOf, h]

theorem drop_append_len {α : Type} (l₁ l₂ : List α) (n : Nat) :
    (l₁ ++ l₂).drop (l₁.length + n) = l₂.drop n := by
  induction l₁ with
  | nil => simp
  | cons a t ih => simp [Nat.succ_add, ih]

theorem ws1_cons_of_not_ws {c : Char} {t : List Char} (h : isJsWs c = false) :
    ws1 (c :: t) = none := by
  simp [ws1, h]

theorem matchAsClause_cons_of_not_ws {c : Char} {t : List Char} (h : isJsWs c = false) :
    matchAsClause (c :: t) = false := by
  simp [matchAsClause, ws1_cons_of_not_ws h]

theorem dropWhile_cons_of_not_ws {c : Char} {t : List Char} (h : isJsWs c = false) :
    (c :: t).dropWhile isJsWs = c :: t := by
  simp [List.dropWhile_cons, h]

theorem matchPythonImport_concat (m a : List Char) (hm : m ≠ []) (ha : a ≠ [])
    (hmc : ∀ c ∈ m, isPlainImportChar c = true)
    (hac : ∀ c ∈ a, isPlainImportChar c = true) :
    matchPythonImport ("import ".toList ++ m ++ " as ".toList ++ a) = some (m, some a) := by
  obtain ⟨mc, m', rfl⟩ := List.exists_cons_of_ne_nil hm
  obtain ⟨ac, a', rfl⟩ := List.exists_cons_of_ne_nil ha
  have hshape : "import ".toList ++ (mc :: m') ++ " as ".toList ++ (ac :: a') =
      "import".toList ++ (' ' :: (mc :: (m' ++ (' ' :: 'a' :: 's' :: ' ' :: ac :: a')))) := by
    have h1 : "import ".toList = "import".toList ++ [' '] := rfl
    rw [h1]
    simp
  rw [hshape]
  unfold matchPythonImport
  rw [lit_append]
  have hmcne : isJsWs mc = false := by
    have := hmc mc (by simp)
    simp [isPlainImportChar, Bool.and_eq_true] at this
    simp [this.1.1]
  have hmall : ∀ c ∈ mc :: m', (fun c => !isJsWs c && c ≠ '#') c = true := by
    intro c hc
    have := hmc c hc
    simp [isPlainImportChar, Bool.and_eq_true] at this ⊢
    exact ⟨this.1.1, this.1.2⟩
  have hacne : isJsWs ac = false := by
    have := hac ac (by simp)
    simp [isPlainImportChar, Bool.and_eq_true] at this
    simp [this.1.1]
  have haall : ∀ c ∈ ac :: a', (fun c => !isJsWs c && c ≠ '#') c = true := by
    intro c hc
    have := hac c hc
    simp [isPlainImportChar, Bool.and_eq_true] at this ⊢
    exact ⟨this.1.1, this.1.2⟩
  have hws : ws1 (' ' :: (mc :: (m' ++ (' ' :: 'a' :: 's' :: ' ' :: ac :: a')))) =
      some (mc :: (m' ++ (' ' :: 'a' :: 's' :: ' ' :: ac :: a'))) := by
    simp only [ws1]
    rw [if_pos (by decide)]
    rw [dropWhile_cons_of_not_ws hmcne]
  have htake : (mc :: (m' ++ (' ' :: 'a' :: 's' :: ' ' :: ac :: a'))).takeWhile
      (fun c => !isJsWs c && c ≠ '#') = mc :: m' := by
    have := takeWhile_append_stop (p := fun c => !isJsWs c && c ≠ '#')
      (m := mc :: m') (c := ' ') (r := 'a' :: 's' :: ' ' :: ac :: a') hmall (by decide)
    simpa using this
  have hdrop : (mc :: (m' ++ (' ' :: 'a' :: 's' :: ' ' :: ac :: a'))).dropWhile
      (fun c => !isJsWs c && c ≠ '#') = ' ' :: 'a' :: 's' :: ' ' :: ac :: a' := by
    have := dropWhile_append_stop (p := fun c => !isJsWs c && c ≠ '#')
      (m := mc :: m') (c := ' ') (r := 'a' :: 's' :: ' ' :: ac :: a') hmall (by decide)
    simpa using this
  have hws2 : ws1 (' ' :: 'a' :: 's' :: ' ' :: ac :: a') =
      some ('a' :: 's' :: ' ' :: ac :: a') := by
    simp only [ws1]
    rw [if_pos (by decide)]
    rw [dropWhile_cons_of_not_ws (by decide)]
  have hlit : lit "as".toList ('a' :: 's' :: ' ' :: ac :: a') = some (' ' :: ac :: a') := by
    have := lit_append "as".toList (' ' :: ac :: a')
    simpa using this
  have hws3 : ws1 (' ' :: ac :: a') = some (ac :: a') := by
    simp only [ws1]
    rw [if_pos (by decide)]
    rw [dropWhile_cons_of_not_ws hacne]
  simp only [hws, htake, hdrop, hws2, hlit, hws3, takeWhile_all haall]
  simp

theorem matchPythonFromImport_import_line (rest : List Char) :
    matchPythonFromImport ('i' :: rest) = none := by
  have hfalse : ("from".toList).isPrefixOf ('i' :: rest) = false := by
    rw [show "from".toList = 'f' :: "rom".toList from rfl]
    exact isPrefixOf_cons_of_ne (by decide)
  unfold matchPythonFromImport lit
  simp [hfalse]

theorem parsePythonImports_plain_concat (m a : List Char) (hm : m ≠ []) (ha : a ≠ [])
    (hmc : ∀ c ∈ m, isPlainImportChar c = true)
    (hac : ∀ c ∈ a, isPlainImportChar c = true) :
    parsePythonImports ⟨"import ".toList ++ m ++ " as ".toList ++ a⟩ =
      [{ source := ⟨m⟩, specifiers := [{ name := ⟨m⟩, type := "default", imported := none }],
         startLine := 1 }] := by
  rcases List.eq_nil_or_concat a with rfl | ⟨a', y, rfl⟩
  · exact absurd rfl ha
  simp only [List.concat_eq_append] at ha hac ⊢
  have hy : isPlainImportChar y = true := hac y (by simp)
  have hyw : isJsWs y = false := by
    simp [isPlainImportChar, Bool.and_eq_true] at hy
    simp [hy.1.1]
  have hshape : "import ".toList ++ m ++ " as ".toList ++ (a' ++ [y]) =
      'i' :: (("mport ".toList ++ m ++ " as ".toList ++ a') ++ [y]) := by
    rw [show "import ".toList = 'i' :: "mport ".toList from rfl]
    simp
  have hnl : ∀ c ∈ "import ".toList ++ m ++ " as ".toList ++ (a' ++ [y]), c ≠ '\n' := by
    intro c hc
    simp only [List.mem_append] at hc
    rcases hc with ((hlit | hmm) | hasl) | haa
    · exact (by decide : ∀ x ∈ "import ".toList, x ≠ '\n') c hlit
    · have := hmc c hmm
      intro heq; subst heq
      simp [isPlainImportChar, isJsWs] at this
    · exact (by decide : ∀ x ∈ " as ".toList, x ≠ '\n') c hasl
    · have := hac c (by simpa using haa)
      intro heq; subst heq
      simp [isPlainImportChar, isJsWs] at this
  have htrim : trimChars ("import ".toList ++ m ++ " as ".toList ++ (a' ++ [y])) =
      "import ".toList ++ m ++ " as ".toList ++ (a' ++ [y]) := by
    rw [hshape]
    exact trimChars_of_ends _ (by decide) hyw
  unfold parsePythonImports
  rw [show (⟨"import ".toList ++ m ++ " as ".toList ++ (a' ++ [y])⟩ : String).data =
      "import ".toList ++ m ++ " as ".toList ++ (a' ++ [y]) from rfl]
  rw [splitOnChar_no_sep hnl]
  rw [show ([("import ".toList ++ m ++ " as ".toList ++ (a' ++ [y]))] :
      List (List Char)).enum = [(0, "import ".toList ++ m ++ " as ".toList ++ (a' ++ [y]))]
    from rfl]
  simp only [List.map_cons, List.map_nil, List.flatten_cons, List.flatten_nil,
    List.append_nil]
  simp only [parsePythonImportsLine]
  rw [htrim, matchPythonImport_concat m (a' ++ [y]) hm (by simp) hmc hac]
  have hfrom : matchPythonFromImport
      ("import ".toList ++ m ++ " as ".toList ++ (a' ++ [y])) = none := by
    rw [hshape]
    exact matchPythonFromImport_import_line _
  rw [hfrom]
  have hsplit : splitOnChar ',' m = [m] := by
    apply splitOnChar_no_sep
    intro c hc heq
    have := hmc c hc
    subst heq
    simp [isPlainImportChar] at this
  have htm : trimChars m = m := by
    apply trimChars_of_no_ws
    intro c hc
    have := hmc c hc
    simp [isPlainImportChar, Bool.and_eq_true] at this
    simp [this.1.1]
  simp [hsplit, htm]

theorem filter_range_unique (pred : Nat → Bool) (n k : Nat) (hk : k < n)
    (h : ∀ p, p < n → (pred p = true ↔ p = k)) :
    (List.range n).filter pred = [k] := by
  induction n with
  | zero => omega
  | succ n ih =>
    rw [List.range_succ, List.filter_append]
    by_cases hkn : k = n
    · subst hkn
      have h1 : (List.range k).filter pred = [] := by
        rw [List.filter_eq_nil_iff]
        intro p hp
        have hplt : p < k := List.mem_range.mp hp
        intro hpt
        have := (h p (by omega)).mp hpt
        omega
      have h2 : pred k = true := (h k (by omega)).mpr rfl
      simp [h1, List.filter, h2]
    · have hklt : k < n := by omega
      have h1 : (List.range n).filter pred = [k] :=
        ih hklt fun p hp => h p (by omega)
      have h2 : pred n = false := by
        by_contra hc
        rw [Bool.not_eq_false] at hc
        exact hkn ((h n (by omega)).mp hc).symm
      simp [h1, List.filter, h2]

theorem drop_append_ge {α : Type} (l₁ l₂ : List α) (n : Nat) (h : l₁.length ≤ n) :
    (l₁ ++ l₂).drop n = l₂.drop (n - l₁.length) := by
  conv_lhs => rw [show n = l₁.length + (n - l₁.length) from by omega]
  rw [drop_append_len]

theorem drop_head_mem {α : Type} {l : List α} {p : Nat} (h : p < l.length) :
    ∃ c t, l.drop p = c :: t ∧ c ∈ l := by
  cases hd : l.drop p with
  | nil =>
    have := List.drop_eq_nil_iff.mp hd
    omega
  | cons c t =>
    refine ⟨c, t, rfl, List.mem_of_mem_drop (n := p) ?_⟩
    rw [hd]
    simp

theorem matchAsClause_ws_as (A : List Char) (hA : A ≠ [])
    (hAc : ∀ c ∈ A, isJsWs c = false) :
    matchAsClause (' ' :: 'a' :: 's' :: ' ' :: A) = true := by
  obtain ⟨ac, a', rfl⟩ := List.exists_cons_of_ne_nil hA
  have hacw : isJsWs ac = false := hAc ac (by simp)
  have hws : ws1 (' ' :: 'a' :: 's' :: ' ' :: ac :: a') =
      some ('a' :: 's' :: ' ' :: ac :: a') := by
    simp only [ws1]
    rw [if_pos (by decide), dropWhile_cons_of_not_ws (by decide)]
  have hlit : lit ['a', 's'] ('a' :: 's' :: ' ' :: ac :: a') = some (' ' :: ac :: a') := by
    simpa using lit_append "as".toList (' ' :: ac :: a')
  unfold matchAsClause
  simp [hws, hlit]
  decide

theorem matchAsClause_ws_head (A : List Char) (hAc : ∀ c ∈ A, isJsWs c = false) :
    matchAsClause (' ' :: A) = false := by
  cases A with
  | nil => decide
  | cons ac a' =>
    have hwa : isJsWs ac = false := hAc ac (by simp)
    have hws : ws1 (' ' :: ac :: a') = some (ac :: a') := by
      simp only [ws1]
      rw [if_pos (by decide), dropWhile_cons_of_not_ws hwa]
    cases hlit : lit ['a', 's'] (ac :: a') with
    | none =>
      unfold matchAsClause
      simp [hws, hlit]
    | some t =>
      have htsub : ∀ x ∈ t, x ∈ ac :: a' := by
        unfold lit at hlit
        split at hlit
        · injection hlit with hl
          intro x hx
          rw [← hl] at hx
          exact List.mem_of_mem_drop hx
        · exact absurd hlit (by simp)
      unfold matchAsClause
      cases t with
      | nil => simp [hws, hlit]
      | cons c t' => simp [hws, hlit, hAc c (htsub c (by simp))]

theorem asSplitIndex_concat (N A : List Char) (hN : N ≠ []) (hA : A ≠ [])
    (hNc : ∀ c ∈ N, isJsWs c = false) (hAc : ∀ c ∈ A, isJsWs c = false) :
    asSplitIndex (N ++ " as ".toList ++ A) = some N.length := by
  have h4 : " as ".toList = ' ' :: 'a' :: 's' :: ' ' :: ([] : List Char) := rfl
  have hlen : (N ++ " as ".toList ++ A).length = N.length + (4 + A.length) := by
    simp [h4]
    omega
  have hNpos : 1 ≤ N.length := List.length_pos.mpr hN
  have hfilter : (List.range (N ++ " as ".toList ++ A).length).filter
      (fun p => decide (1 ≤ p) && matchAsClause ((N ++ " as ".toList ++ A).drop p)) =
      [N.length] := by
    apply filter_range_unique _ _ N.length (by omega)
    intro p hp
    rw [hlen] at hp
    simp only [Bool.and_eq_true, decide_eq_true_eq]
    constructor
    · rintro ⟨hp1, hclause⟩
      by_contra hne
      rcases Nat.lt_or_ge p N.length with hlt | hge
      · obtain ⟨c, t, hdrop2, hcmem⟩ := drop_head_mem (l := N) (p := p) hlt
        have hform : (N ++ " as ".toList ++ A).drop p =
            c :: (t ++ (" as ".toList ++ A)) := by
          rw [List.append_assoc, List.drop_append_of_le_length (Nat.le_of_lt hlt), hdrop2]
          simp
        rw [hform, matchAsClause_cons_of_not_ws (hNc c hcmem)] at hclause
        exact absurd hclause (by simp)
      · have hgt : N.length < p := by omega
        have hform : (N ++ " as ".toList ++ A).drop p =
            (" as ".toList ++ A).drop (p - N.length) := by
          rw [List.append_assoc]
          exact drop_append_ge N _ p hge
        rw [hform] at hclause
        have hq1 : 1 ≤ p - N.length := by omega
        have hqlt : p - N.length < 4 + A.length := by omega
        rcases (by omega : p - N.length = 1 ∨ p - N.length = 2 ∨ p - N.length = 3 ∨
            4 ≤ p - N.length) with hq | hq | hq | hq
        · rw [hq, h4] at hclause
          simp only [List.cons_append, List.nil_append, List.drop_succ_cons,
            List.drop_zero] at hclause
          rw [matchAsClause_cons_of_not_ws (by decide)] at hclause
          exact absurd hclause (by simp)
        · rw [hq, h4] at hclause
          simp only [List.cons_append, List.nil_append, List.drop_succ_cons,
            List.drop_zero] at hclause
          rw [matchAsClause_cons_of_not_ws (by decide)] at hclause
          exact absurd hclause (by simp)
        · rw [hq, h4] at hclause
          simp only [List.cons_append, List.nil_append, List.drop_succ_cons,
            List.drop_zero] at hclause
          rw [matchAsClause_ws_head A hAc] at hclause
          exact absurd hclause (by simp)
        · have hform2 : (" as ".toList ++ A).drop (p - N.length) =
              A.drop (p - N.length - 4) := by
            rw [drop_append_ge _ _ _ (by rw [show (" as ".toList).length = 4 from rfl]; omega)]
            rw [show (" as ".toList).length = 4 from rfl]
          rw [hform2] at hclause
          have hlt2 : p - N.length - 4 < A.length := by omega
          obtain ⟨c, t, hdrop2, hcmem⟩ := drop_head_mem (l := A) (p := p - N.length - 4) hlt2
          rw [hdrop2, matchAsClause_cons_of_not_ws (hAc c hcmem)] at hclause
          exact absurd hclause (by simp)
    · rintro rfl
      refine ⟨hNpos, ?_⟩
      have hform : (N ++ " as ".toList ++ A).drop N.length = " as ".toList ++ A := by
        rw [List.append_assoc, List.drop_left]
      rw [hform, h4]
      simp only [List.cons_append, List.nil_append]
      exact matchAsClause_ws_as A hA hAc
  unfold asSplitIndex
  rw [hfilter]
  rfl

theorem asClauseTail_concat (A : List Char) (hA : A ≠ [])
    (hAc : ∀ c ∈ A, isJsWs c = false) :
    asClauseTail (' ' :: 'a' :: 's' :: ' ' :: A) = A := by
  obtain ⟨ac, a', rfl⟩ := List.exists_cons_of_ne_nil hA
  have hwa : isJsWs ac = false := hAc ac (by simp)
  have h1 : (' ' :: 'a' :: 's' :: ' ' :: ac :: a').dropWhile isJsWs =
      'a' :: 's' :: ' ' :: ac :: a' := by
    rw [List.dropWhile_cons, if_pos (by decide), dropWhile_cons_of_not_ws (by decide)]
  have h2 : (' ' :: ac :: a').takeWhile isJsWs = [' '] := by
    rw [List.takeWhile_cons, if_pos (by decide), List.takeWhile_cons, if_neg (by simp [hwa])]
  simp only [asClauseTail, h1, List.drop_succ_cons, List.drop_zero, h2]
  have hmin : min ([' '] : List Char).length ((' ' :: ac :: a').length - 1) = 1 := by
    simp
  rw [hmin]
  rfl

theorem parseFromSpecifier_concat (N A : List Char) (hN : N ≠ []) (hA : A ≠ [])
    (hNc : ∀ c ∈ N, isJsWs c = false) (hAc : ∀ c ∈ A, isJsWs c = false) :
    parseFromSpecifier (N ++ " as ".toList ++ A) =
      { name := ⟨A⟩, type := "named", imported := some ⟨N⟩ } := by
  obtain ⟨nc, N', rfl⟩ := List.exists_cons_of_ne_nil hN
  rcases List.eq_nil_or_concat A with rfl | ⟨A', y, rfl⟩
  · exact absurd rfl hA
  simp only [List.concat_eq_append] at hA hAc ⊢
  have hyw : isJsWs y = false := hAc y (by simp)
  have hshape : (nc :: N') ++ " as ".toList ++ (A' ++ [y]) =
      nc :: ((N' ++ " as ".toList ++ A') ++ [y]) := by simp
  have htrim : trimChars ((nc :: N') ++ " as ".toList ++ (A' ++ [y])) =
      (nc :: N') ++ " as ".toList ++ (A' ++ [y]) := by
    rw [hshape]
    exact trimChars_of_ends _ (hNc nc (by simp)) hyw
  simp only [parseFromSpecifier]
  rw [htrim, asSplitIndex_concat (nc :: N') (A' ++ [y]) (by simp) (by simp) hNc hAc]
  have hdropN : ((nc :: N') ++ " as ".toList ++ (A' ++ [y])).drop (nc :: N').length =
      " as ".toList ++ (A' ++ [y]) := by
    rw [List.append_assoc, List.drop_left]
  have htakeN : ((nc :: N') ++ " as ".toList ++ (A' ++ [y])).take (nc :: N').length =
      nc :: N' := by
    rw [List.append_assoc, List.take_left]
  have htail : asClauseTail (' ' :: 'a' :: 's' :: ' ' :: (A' ++ [y])) = A' ++ [y] :=
    asClauseTail_concat _ (by simp) hAc
  have htA : trimChars (A' ++ [y]) = A' ++ [y] := trimChars_of_no_ws hAc
  have htN : trimChars (nc :: N') = nc :: N' := trimChars_of_no_ws hNc
  simp [hdropN, htakeN, htail, htA, htN]

theorem matchPythonImport_from_line (rest : List Char) :
    matchPythonImport ('f' :: rest) = none := by
  have hfalse : ("import".toList).isPrefixOf ('f' :: rest) = false := by
    rw [show "import".toList = 'i' :: "mport".toList from rfl]
    exact isPrefixOf_cons_of_ne (by decide)
  unfold matchPythonImport lit
  simp [hfalse]

theorem matchPythonFromImport_concat (M R' : List Char) (rc : Char) (hM : M ≠ [])
    (hMc : ∀ c ∈ M, isJsWs c = false) (hrc : isJsWs rc = false) :
    matchPythonFromImport ("from ".toList ++ M ++ " import ".toList ++ (rc :: R')) =
      some (M, rc :: R') := by
  obtain ⟨mc, M', rfl⟩ := List.exists_cons_of_ne_nil hM
  have hmw : isJsWs mc = false := hMc mc (by simp)
  have hshape : "from ".toList ++ (mc :: M') ++ " import ".toList ++ (rc :: R') =
      "from".toList ++ (' ' :: (mc :: (M' ++
        (' ' :: 'i' :: 'm' :: 'p' :: 'o' :: 'r' :: 't' :: ' ' :: rc :: R')))) := by
    rw [show "from ".toList = "from".toList ++ [' '] from rfl]
    simp
  rw [hshape]
  unfold matchPythonFromImport
  rw [lit_append]
  have hmall : ∀ c ∈ mc :: M', (fun c => !isJsWs c) c = true := by
    intro c hc
    simp [hMc c hc]
  have hws1 : ws1 (' ' :: (mc :: (M' ++
      (' ' :: 'i' :: 'm' :: 'p' :: 'o' :: 'r' :: 't' :: ' ' :: rc :: R')))) =
      some (mc :: (M' ++
        (' ' :: 'i' :: 'm' :: 'p' :: 'o' :: 'r' :: 't' :: ' ' :: rc :: R'))) := by
    simp only [ws1]
    rw [if_pos (by decide), dropWhile_cons_of_not_ws hmw]
  have htake : (mc :: (M' ++
      (' ' :: 'i' :: 'm' :: 'p' :: 'o' :: 'r' :: 't' :: ' ' :: rc :: R'))).takeWhile
      (fun c => !isJsWs c) = mc :: M' := by
    have := takeWhile_append_stop (p := fun c => !isJsWs c) (m := mc :: M') (c := ' ')
      (r := 'i' :: 'm' :: 'p' :: 'o' :: 'r' :: 't' :: ' ' :: rc :: R') hmall (by decide)
    simpa using this
  have hdrop : (mc :: (M' ++
      (' ' :: 'i' :: 'm' :: 'p' :: 'o' :: 'r' :: 't' :: ' ' :: rc :: R'))).dropWhile
      (fun c => !isJsWs c) = ' ' :: 'i' :: 'm' :: 'p' :: 'o' :: 'r' :: 't' :: ' ' :: rc :: R' := by
    have := dropWhile_append_stop (p := fun c => !isJsWs c) (m := mc :: M') (c := ' ')
      (r := 'i' :: 'm' :: 'p' :: 'o' :: 'r' :: 't' :: ' ' :: rc :: R') hmall (by decide)
    simpa using this
  have hws2 : ws1 (' ' :: 'i' :: 'm' :: 'p' :: 'o' :: 'r' :: 't' :: ' ' :: rc :: R') =
      some ('i' :: 'm' :: 'p' :: 'o' :: 'r' :: 't' :: ' ' :: rc :: R') := by
    simp only [ws1]
    rw [if_pos (by decide), dropWhile_cons_of_not_ws (by decide)]
  have hlit2 : lit "import".toList
      ('i' :: 'm' :: 'p' :: 'o' :: 'r' :: 't' :: ' ' :: rc :: R') = some (' ' :: rc :: R') := by
    simpa using lit_append "import".toList (' ' :: rc :: R')
  have hws3 : ws1 (' ' :: rc :: R') = some (rc :: R') := by
    simp only [ws1]
    rw [if_pos (by decide), dropWhile_cons_of_not_ws hrc]
  simp only [hws1, htake, hdrop, hws2, hlit2, hws3]
  simp

theorem parsePythonImports_from_concat (M N A : List Char)
    (hM : M ≠ []) (hN : N ≠ []) (hA : A ≠ [])
    (hMc : ∀ c ∈ M, isFromItemChar c = true)
    (hNc : ∀ c ∈ N, isFromItemChar c = true)
    (hAc : ∀ c ∈ A, isFromItemChar c = true) :
    parsePythonImports
        ⟨"from ".toList ++ M ++ " import ".toList ++ (N ++ " as ".toList ++ A)⟩ =
      [{ source := ⟨M⟩
         specifiers := [{ name := ⟨A⟩, type := "named", imported := some ⟨N⟩ }]
         startLine := 1 }] := by
  have hMw : ∀ c ∈ M, isJsWs c = false := by
    intro c hc
    have := hMc c hc
    simp [isFromItemChar, Bool.and_eq_true] at this
    simp [this.1]
  have hNw : ∀ c ∈ N, isJsWs c = false := by
    intro c hc
    have := hNc c hc
    simp [isFromItemChar, Bool.and_eq_true] at this
    simp [this.1]
  have hAw : ∀ c ∈ A, isJsWs c = false := by
    intro c hc
    have := hAc c hc
    simp [isFromItemChar, Bool.and_eq_true] at this
    simp [this.1]
  rcases List.eq_nil_or_concat A with rfl | ⟨A', y, rfl⟩
  · exact absurd rfl hA
  simp only [List.concat_eq_append] at hA hAc hAw ⊢
  obtain ⟨nc, N', rfl⟩ := List.exists_cons_of_ne_nil hN
  have hyw : isJsWs y = false := hAw y (by simp)
  have hshape : "from ".toList ++ M ++ " import ".toList ++
      ((nc :: N') ++ " as ".toList ++ (A' ++ [y])) =
      'f' :: (("rom ".toList ++ M ++ " import ".toList ++ ((nc :: N') ++ " as ".toList ++ A'))
        ++ [y]) := by
    rw [show "from ".toList = 'f' :: "rom ".toList from rfl]
    simp
  have hwsafe : ∀ d : Char, isJsWs d = false → d ≠ '\n' := by
    intro d hd heq
    subst heq
    simp [isJsWs] at hd
  have hnl : ∀ c ∈ "from ".toList ++ M ++ " import ".toList ++
      ((nc :: N') ++ " as ".toList ++ (A' ++ [y])), c ≠ '\n' := by
    intro c hc
    rcases List.mem_append.mp hc with hc1 | hc2
    · rcases List.mem_append.mp hc1 with hc3 | hc4
      · rcases List.mem_append.mp hc3 with hc5 | hc6
        · exact (by decide : ∀ x ∈ "from ".toList, x ≠ '\n') c hc5
        · exact hwsafe c (hMw c hc6)
      · exact (by decide : ∀ x ∈ " import ".toList, x ≠ '\n') c hc4
    · rcases List.mem_append.mp hc2 with hc3 | hc4
      · rcases List.mem_append.mp hc3 with hc5 | hc6
        · exact hwsafe c (hNw c hc5)
        · exact (by decide : ∀ x ∈ " as ".toList, x ≠ '\n') c hc6
      · exact hwsafe c (hAw c hc4)
  have htrim : trimChars ("from ".toList ++ M ++ " import ".toList ++
      ((nc :: N') ++ " as ".toList ++ (A' ++ [y]))) =
      "from ".toList ++ M ++ " import ".toList ++
        ((nc :: N') ++ " as ".toList ++ (A' ++ [y])) := by
    rw [hshape]
    exact trimChars_of_ends _ (by decide) hyw
  unfold parsePythonImports
  rw [show (⟨"from ".toList ++ M ++ " import ".toList ++
      ((nc :: N') ++ " as ".toList ++ (A' ++ [y]))⟩ : String).data =
      "from ".toList ++ M ++ " import ".toList ++
        ((nc :: N') ++ " as ".toList ++ (A' ++ [y])) from rfl]
  rw [splitOnChar_no_sep hnl]
  rw [show ([("from ".toList ++ M ++ " import ".toList ++
      ((nc :: N') ++ " as ".toList ++ (A' ++ [y])))] : List (List Char)).enum =
      [(0, "from ".toList ++ M ++ " import ".toList ++
        ((nc :: N') ++ " as ".toList ++ (A' ++ [y])))] from rfl]
  simp only [List.map_cons, List.map_nil, List.flatten_cons, List.flatten_nil,
    List.append_nil]
  simp only [parsePythonImportsLine]
  rw [htrim]
  have himp : matchPythonImport ("from ".toList ++ M ++ " import ".toList ++
      ((nc :: N') ++ " as ".toList ++ (A' ++ [y]))) = none := by
    rw [show "from ".toList ++ M ++ " import ".toList ++
        ((nc :: N') ++ " as ".toList ++ (A' ++ [y])) =
        'f' :: ("rom ".toList ++ M ++ " import ".toList ++
          ((nc :: N') ++ " as ".toList ++ (A' ++ [y]))) from by
      rw [show "from ".toList = 'f' :: "rom ".toList from rfl]
      simp]
    exact matchPythonImport_from_line _
  rw [himp]
  have hfrom : matchPythonFromImport ("from ".toList ++ M ++ " import ".toList ++
      ((nc :: N') ++ " as ".toList ++ (A' ++ [y]))) =
      some (M, (nc :: N') ++ " as ".toList ++ (A' ++ [y])) := by
    have hre : (nc :: N') ++ " as ".toList ++ (A' ++ [y]) =
        nc :: (N' ++ " as ".toList ++ (A' ++ [y])) := by simp
    rw [hre]
    exact matchPythonFromImport_concat M _ nc hM hMw (hNw nc (by simp))
  rw [hfrom]
  have hnosep : ∀ c ∈ nc :: (N' ++ ' ' :: 'a' :: 's' :: ' ' :: (A' ++ [y])), c ≠ ',' := by
    intro c hc heq
    subst heq
    rcases List.mem_cons.mp hc with heq2 | hc2
    · have := hNc ',' (by simp [← heq2])
      simp [isFromItemChar] at this
    · rcases List.mem_append.mp hc2 with h1 | h2
      · have := hNc ',' (by simp [h1])
        simp [isFromItemChar] at this
      · simp only [List.mem_cons] at h2
        rcases h2 with h3 | h3 | h3 | h3 | h3
        · exact absurd h3 (by decide)
        · exact absurd h3 (by decide)
        · exact absurd h3 (by decide)
        · exact absurd h3 (by decide)
        · have := hAc ',' (by simpa using h3)
          simp [isFromItemChar] at this
  have hsplit : splitOnChar ',' (nc :: (N' ++ ' ' :: 'a' :: 's' :: ' ' :: (A' ++ [y]))) =
      [nc :: (N' ++ ' ' :: 'a' :: 's' :: ' ' :: (A' ++ [y]))] :=
    splitOnChar_no_sep hnosep
  have hspec : parseFromSpecifier (nc :: (N' ++ ' ' :: 'a' :: 's' :: ' ' :: (A' ++ [y]))) =
      { name := ⟨A' ++ [y]⟩, type := "named", imported := some ⟨nc :: N'⟩ } := by
    rw [show nc :: (N' ++ ' ' :: 'a' :: 's' :: ' ' :: (A' ++ [y])) =
        (nc :: N') ++ " as ".toList ++ (A' ++ [y]) from by simp]
    exact parseFromSpecifier_concat _ _ (by simp) (by simp) hNw hAw
  simp [hsplit, hspec]

/-- Claim C10: in the grammar-B extractor, a plain `import module as alias`
line records one `ImportEdge` whose single binding's local name is the
module name — the alias is matched by the pattern but discarded and the
`imported` field stays unset — while a `from module import name as alias`
line does record the rename, binding the alias as the local name with the
original name in `imported`. -/
theorem parsePythonImports_alias_discarded (m a M N A : List Char)
    (hm : m ≠ []) (ha : a ≠ [])
    (hmc : ∀ c ∈ m, isPlainImportChar c = true)
    (hac : ∀ c ∈ a, isPlainImportChar c = true)
    (hM : M ≠ []) (hN : N ≠ []) (hA : A ≠ [])
    (hMc : ∀ c ∈ M, isFromItemChar c = true)
    (hNc : ∀ c ∈ N, isFromItemChar c = true)
    (hAc : ∀ c ∈ A, isFromItemChar c = true) :
    parsePythonImports ⟨"import ".toList ++ m ++ " as ".toList ++ a⟩ =
      [{ source := ⟨m⟩
         specifiers := [{ name := ⟨m⟩, type := "default", imported := none }]
         startLine := 1 }] ∧
    parsePythonImports
        ⟨"from ".toList ++ M ++ " import ".toList ++ (N ++ " as ".toList ++ A)⟩ =
      [{ source := ⟨M⟩
         specifiers := [{ name := ⟨A⟩, type := "named", imported := some ⟨N⟩ }]
         startLine := 1 }] :=
  ⟨parsePythonImports_plain_concat m a hm ha hmc hac,
   parsePythonImports_from_concat M N A hM hN hA hMc hNc hAc⟩

/-- Witness for C10 at the concrete lines `import numpy as np` and
`from os import path as p`: the alias `np` is discarded (the binding is
named `numpy`) while the from-import records the rename. -/
theorem parsePythonImports_alias_discarded_witness :
    parsePythonImports "import numpy as np" =
      [{ source := "numpy"
         specifiers := [{ name := "numpy", type := "default", imported := none }]
         startLine := 1 }] ∧
    parsePythonImports "from os import path as p" =
      [{ source := "os"
         specifiers := [{ name := "p", type := "named", imported := some "path" }]
         startLine := 1 }] := by
  have h := parsePythonImports_alias_discarded "numpy".toList "np".toList
    "os".toList "path".toList "p".toList
    (by decide) (by decide) (by decide) (by decide)
    (by decide) (by decide) (by decide) (by decide) (by decide) (by decide)
  constructor
  · rw [show ("import numpy as np" : String) =
        ⟨"import ".toList ++ "numpy".toList ++ " as ".toList ++ "np".toList⟩ from by decide]
    exact h.1
  · rw [show ("from os import path as p" : String) =
        ⟨"from ".toList ++ "os".toList ++ " import ".toList ++
          ("path".toList ++ " as ".toList ++ "p".toList)⟩ from by decide]
    exact h.2
